import Mathlib

/-!
Verification development for the `gos` library ("Go ↔ SQL"): a reflective
row-decoder that maps SQL result columns onto (possibly nested) struct
destinations. The definitions below are a shallow embedding of the Go source:
Go's runtime types (`reflect.Type`) become the inductive `Rtype`, runtime
values (`reflect.Value`) become `Rval`, and each Go function of the library is
translated into a Lean function of the same name. Destructive updates on the
destination value are modelled by threading the root value through each
function and returning it (together with an optional error, mirroring Go's
`error` returns).
-/

set_option maxHeartbeats 1000000

namespace Gos

mutual
/-- Model of Go `reflect.Type` restricted to the kinds the library handles.
`prim` covers driver-decodable scalar kinds (string, ints, ...); `time` is
`time.Time` (scannable per `isScannableRtype` but its pointer does not
implement `sql.Scanner`); `scannable` is a type whose pointer implements
`sql.Scanner`, with `nullScan` describing the behaviour of `Scan(nil)`:
`none` means the call returns an error and `some s` means it succeeds and
leaves the value `s` in the receiver. `strct` carries the ordered field
list. -/
inductive Rtype : Type where
  | prim : Rtype
  | time : Rtype
  | scannable (nullScan : Option String) : Rtype
  | ptr (elem : Rtype) : Rtype
  | slice (elem : Rtype) : Rtype
  | strct (fields : List Sfield) : Rtype

/-- Model of Go `reflect.StructField`: field name, `db` tag, `role` tag,
anonymous (embedded) flag, exported flag and the field's type. -/
inductive Sfield : Type where
  | mk (name : String) (tag : String) (roleTag : String)
      (anonymous : Bool) (exported : Bool) (type : Rtype) : Sfield
end

def Sfield.name : Sfield → String
  | .mk n _ _ _ _ _ => n

def Sfield.tag : Sfield → String
  | .mk _ t _ _ _ _ => t

def Sfield.roleTag : Sfield → String
  | .mk _ _ r _ _ _ => r

def Sfield.anonymous : Sfield → Bool
  | .mk _ _ _ a _ _ => a

def Sfield.exported : Sfield → Bool
  | .mk _ _ _ _ e _ => e

def Sfield.type : Sfield → Rtype
  | .mk _ _ _ _ _ t => t

/-- Model of Go values of the above types. A Go pointer is `ptr none` (nil)
or `ptr (some v)`; a Go slice tracks nil-ness, capacity and elements (length
is `elems.length`); a struct holds one value per field. `str` is the payload
of any scalar leaf. -/
inductive Rval : Type where
  | str (s : String) : Rval
  | ptr (v : Option Rval) : Rval
  | slc (isNil : Bool) (cap : Nat) (elems : List Rval) : Rval
  | strct (fields : List Rval) : Rval

/-- Source `derefRtype` / `refut.RtypeDeref`: peel all pointer layers. -/
def derefRtype : Rtype → Rtype
  | .ptr t => derefRtype t
  | t => t

/-- Source `isScannableRtype`: `time.Time`, or the pointer type implements
`sql.Scanner`. -/
def isScannableRtype : Rtype → Bool
  | .time => true
  | .scannable _ => true
  | _ => false

/-- Whether the addressable value implements `sql.Scanner`
(`fieldRval.Addr().Interface().(sql.Scanner)` in the source); unlike
`isScannableRtype` this is false for `time.Time`. -/
def isSqlScannerRtype : Rtype → Bool
  | .scannable _ => true
  | _ => false

/-- Source `isNilableRkind` / `refut.IsRkindNilable` restricted to the kinds
representable here (chan/func/interface/map are not modelled). -/
def isNilableRtype : Rtype → Bool
  | .ptr _ => true
  | .slice _ => true
  | _ => false

/-- Source `isRtypeNilable` in the middle revision applies the kind test to
the type. -/
def isRtypeNilable (t : Rtype) : Bool := isNilableRtype t

/-- Whether a type is a struct kind after dereferencing. -/
def isStructKind (t : Rtype) : Bool :=
  match derefRtype t with
  | .strct _ => true
  | _ => false

/-- Source `isRtypeStructNonScannable`: dereferences to a struct that is not
scannable. -/
def isRtypeStructNonScannable (t : Rtype) : Bool :=
  match derefRtype t with
  | .strct _ => !isScannableRtype (derefRtype t)
  | _ => false

/-- Source `stringIndex`: index of a string in a list, `-1` when absent. -/
def stringIndex (strs : List String) (str : String) : Int :=
  match strs with
  | [] => -1
  | s :: rest =>
    if s = str then 0
    else
      let r := stringIndex rest str
      if r = -1 then -1 else r + 1

/-- Source `structFieldColumnName` / `sfieldColumnName`: the `db` tag, with
`-` (and the empty tag) meaning "no column". -/
def sfieldColumnName (sfield : Sfield) : String :=
  if sfield.tag = "-" then "" else sfield.tag

mutual
/-- `reflect.Zero` of a type: the Go zero value. -/
def zeroOfType : Rtype → Rval
  | .prim => .str ""
  | .time => .str ""
  | .scannable _ => .str ""
  | .ptr _ => .ptr none
  | .slice _ => .slc true 0 []
  | .strct fields => .strct (zeroOfFields fields)

def zeroOfFields : List Sfield → List Rval
  | [] => []
  | .mk _ _ _ _ _ t :: rest => zeroOfType t :: zeroOfFields rest
end

/-- The type of the `i`-th struct field, with a harmless default for
out-of-range indices (the Go code would panic there). -/
def sfieldTypeAt (fields : List Sfield) (i : Nat) : Rtype :=
  ((fields.getD i (.mk "" "" "" false false .prim)).type)

theorem sizeOf_sfield_type_lt (f : Sfield) : sizeOf f.type < sizeOf f := by
  rcases f with ⟨n, t, r, a, e, ty⟩
  simp [Sfield.type]
  try omega

theorem sizeOf_sfieldTypeAt_lt (fields : List Sfield) (i : Nat) :
    sizeOf (sfieldTypeAt fields i) < 1 + sizeOf fields := by
  induction fields generalizing i with
  | nil =>
    simp [sfieldTypeAt, Sfield.type]
  | cons f rest ih =>
    cases i with
    | zero =>
      have := sizeOf_sfield_type_lt f
      simp [sfieldTypeAt] at *
      omega
    | succ j =>
      have := ih j
      simp [sfieldTypeAt] at this ⊢
      omega

/-- Read the value at a struct field path (Go's walk in
`derefAllocStructRvalAt`, read-only): pointers on the way are dereferenced
(`none` when nil), struct steps index the field list. The final field is
returned as-is (not dereferenced). -/
def getAtPath : Rval → List Nat → Option Rval
  | v, [] => some v
  | .ptr none, _ :: _ => none
  | .ptr (some w), path => getAtPath w path
  | .strct vs, i :: rest => (vs.get? i).bind (fun fv => getAtPath fv rest)
  | _, _ :: _ => none

/-- Source `derefAllocStructRvalAt` / `refut.RvalFieldByPathAlloc` followed by
an update of the field found there: walks the path, allocating (zeroing) any
nil pointer on the way, and applies `f` (which receives the field's static
type and current value) to the final field. Returns the updated root value.
This models the in-place mutation of the Go original. -/
def updAtPath : Rtype → Rval → List Nat → (Rtype → Rval → Rval) → Rval
  | t, v, [], f => f t v
  | .ptr e, .ptr w, path, f =>
    .ptr (some (updAtPath e (w.getD (zeroOfType e)) path f))
  | .strct fts, .strct vs, i :: rest, f =>
    .strct (vs.set i (updAtPath (sfieldTypeAt fts i) (vs.getD i (.str "")) rest f))
  | _, v, _, _ => v
termination_by t _ _ _ => sizeOf t
decreasing_by
  all_goals simp only [Rtype.ptr.sizeOf_spec, Rtype.strct.sizeOf_spec]
  · omega
  · exact sizeOf_sfieldTypeAt_lt fts i

/-- The static type reached by the walk of `updAtPath` (total, with a junk
default on mismatch). -/
def pathType : Rtype → List Nat → Rtype
  | t, [] => t
  | .ptr e, path => pathType e path
  | .strct fts, i :: rest => pathType (sfieldTypeAt fts i) rest
  | _, _ :: _ => .prim
termination_by t _ => sizeOf t
decreasing_by
  all_goals simp only [Rtype.ptr.sizeOf_spec, Rtype.strct.sizeOf_spec]
  · omega
  · exact sizeOf_sfieldTypeAt_lt fts i

/-- Source `ErrCode` (errors.go). -/
inductive ErrCode : Type where
  | unknown : ErrCode
  | noRows : ErrCode
  | multipleRows : ErrCode
  | invalidDest : ErrCode
  | invalidInput : ErrCode
  | noColDest : ErrCode
  | redundantCol : ErrCode
  | null : ErrCode
  | scan : ErrCode
deriving DecidableEq, Repr

/-- Source `Err` (errors.go): code, `While` phrase and cause. The cause is
modelled as its message string. -/
structure Err : Type where
  code : ErrCode
  while_ : String
  cause : String
deriving DecidableEq, Repr

/-- Source `tFieldSpec` (querying.go, middle revision). The Go struct links to
its parent via the `parentFieldSpec` pointer, which is only ever used by
`isNilableOrHasNilableNonRootAncestor` to read `typeSpec.rtype` of each
ancestor; the pointer chain is therefore represented by `chain`: the list of
`typeSpec.rtype` values starting at this spec and walking up through its
non-root ancestors. `children` is `typeSpec.fieldSpecs`. -/
inductive FieldSpec : Type where
  | mk (sfield : Sfield) (fieldPath : List Nat) (colName : String) (colAlias : String)
      (colIndex : Int) (chain : List Rtype) (children : List FieldSpec) : FieldSpec

def FieldSpec.sfield : FieldSpec → Sfield
  | .mk s _ _ _ _ _ _ => s

def FieldSpec.fieldPath : FieldSpec → List Nat
  | .mk _ p _ _ _ _ _ => p

def FieldSpec.colName : FieldSpec → String
  | .mk _ _ n _ _ _ _ => n

def FieldSpec.colAlias : FieldSpec → String
  | .mk _ _ _ a _ _ _ => a

def FieldSpec.colIndex : FieldSpec → Int
  | .mk _ _ _ _ i _ _ => i

def FieldSpec.chain : FieldSpec → List Rtype
  | .mk _ _ _ _ _ c _ => c

def FieldSpec.children : FieldSpec → List FieldSpec
  | .mk _ _ _ _ _ _ cs => cs

theorem sizeOf_fieldSpec_children_lt (fs : FieldSpec) : sizeOf fs.children < sizeOf fs := by
  rcases fs with ⟨s, p, n, a, i, c, cs⟩
  simp [FieldSpec.children]
  try omega

/-- Source `isNilableOrHasNilableNonRootAncestor` (utils.go): walk the
`parentFieldSpec` chain (represented by the `chain` list) looking for a
nilable `typeSpec.rtype`. -/
def isNilableOrHasNilableNonRootAncestor : List Rtype → Bool
  | [] => false
  | t :: rest => isNilableRtype t || isNilableOrHasNilableNonRootAncestor rest

/-- The `role`-tag walk inside `traverseMakeSpec` (querying.go, middle
revision, lines 783-794): while the field's inner type is a struct with at
least one field whose head field carries tag `role:"ref"`, step into the head
field, extending the field path with its index 0. -/
def refWalk : Rtype → List Nat → Rtype × List Nat
  | t@(.strct (head :: _)), fieldPath =>
    if head.roleTag = "ref" then refWalk head.type (fieldPath ++ [0])
    else (t, fieldPath)
  | t, fieldPath => (t, fieldPath)
termination_by t _ => sizeOf t
decreasing_by
  have h1 := sizeOf_sfield_type_lt head
  simp
  omega

theorem sizeOf_refWalk_fst_le (t : Rtype) (p : List Nat) :
    sizeOf (refWalk t p).1 ≤ sizeOf t := by
  induction t, p using refWalk.induct with
  | case1 head tail fieldPath hrole ih =>
    rw [refWalk, if_pos hrole]
    have h1 := sizeOf_sfield_type_lt head
    have h2 : sizeOf head.type ≤ sizeOf (Rtype.strct (head :: tail)) := by
      simp
      omega
    omega
  | case2 head tail fieldPath hrole =>
    rw [refWalk, if_neg hrole]
  | case3 t fieldPath h =>
    have heq : refWalk t fieldPath = (t, fieldPath) := by
      rw [refWalk.eq_def]
      split
      · rename_i h1 h2 h3
        exact absurd rfl (h h2 h3)
      · rfl
    rw [heq]

theorem sizeOf_derefRtype_le (t : Rtype) : sizeOf (derefRtype t) ≤ sizeOf t := by
  induction t using derefRtype.induct with
  | case1 e ih =>
    rw [derefRtype]
    simp
    omega
  | case2 t h =>
    have heq : derefRtype t = t := by
      rw [derefRtype.eq_def]
      split
      · rename_i h1
        exact absurd rfl (h h1)
      · rfl
    rw [heq]

/-- The `colRtypes` map of the spec: alias → static field type, represented
as an association list in insertion (traversal) order. -/
abbrev AliasMap := List (String × Rtype)

/-- Lookup in `colRtypes` (`spec.colRtypes[alias]`). -/
def aliasLookup (m : AliasMap) (k : String) : Option Rtype :=
  match m with
  | [] => none
  | (k', t) :: rest => if k' = k then some t else aliasLookup rest k

mutual
/-- Source `traverseMakeSpec` (querying.go, middle revision, lines 744-818):
walk the destination struct type building one `FieldSpec` per field and
recording column aliases in `colRtypes`. Mutation of `spec` is modelled by
threading the alias map; the `typeSpec.fieldSpecs` assignment is the returned
list. -/
def traverseMakeSpec (typ : Rtype) (colNames : List String) (m : AliasMap)
    (parentChain : List Rtype) (colPath : List String) (fieldPath : List Nat) :
    Except Err (List FieldSpec × AliasMap) :=
  match hd : derefRtype typ with
  | .strct fields => makeSpecFields fields 0 colNames m parentChain colPath fieldPath
  | _ => .ok ([], m)
termination_by sizeOf typ
decreasing_by
  have h1 := sizeOf_derefRtype_le typ
  rw [hd] at h1
  simp at h1
  omega

/-- The loop body of `traverseMakeSpec` over the field list, with `i` the
current field index. -/
def makeSpecFields (fields : List Sfield) (i : Nat) (colNames : List String)
    (m : AliasMap) (parentChain : List Rtype) (colPath : List String)
    (fieldPath : List Nat) : Except Err (List FieldSpec × AliasMap) :=
  match fields with
  | [] => .ok ([], m)
  | f :: rest =>
    let fieldPathI := fieldPath ++ [i]
    let chain := f.type :: parentChain
    if f.exported = false then
      match makeSpecFields rest (i + 1) colNames m parentChain colPath fieldPath with
      | .error e => .error e
      | .ok (specs, m') => .ok (FieldSpec.mk f fieldPathI "" "" (-1) chain [] :: specs, m')
    else if f.anonymous && isStructKind f.type then
      match traverseMakeSpec (derefRtype f.type) colNames m chain colPath fieldPathI with
      | .error e => .error e
      | .ok (children, m1) =>
        match makeSpecFields rest (i + 1) colNames m1 parentChain colPath fieldPath with
        | .error e => .error e
        | .ok (specs, m') =>
          .ok (FieldSpec.mk f fieldPathI "" "" (-1) chain children :: specs, m')
    else if sfieldColumnName f = "" then
      match makeSpecFields rest (i + 1) colNames m parentChain colPath fieldPath with
      | .error e => .error e
      | .ok (specs, m') => .ok (FieldSpec.mk f fieldPathI "" "" (-1) chain [] :: specs, m')
    else
      let colName := sfieldColumnName f
      let innerT := (refWalk (derefRtype f.type) fieldPathI).1
      let innerPath := (refWalk (derefRtype f.type) fieldPathI).2
      let colPathI := colPath ++ [colName]
      let colAlias := String.intercalate "." colPathI
      let colIndex := stringIndex colNames colAlias
      if (aliasLookup m colAlias).isSome then
        .error { code := .redundantCol, while_ := "preparing destination spec",
                 cause := "redundant occurrence of column " ++ colAlias }
      else
        let m1 := m ++ [(colAlias, f.type)]
        if isRtypeStructNonScannable innerT then
          match traverseMakeSpec innerT colNames m1 chain colPathI innerPath with
          | .error e => .error e
          | .ok (children, m2) =>
            match makeSpecFields rest (i + 1) colNames m2 parentChain colPath fieldPath with
            | .error e => .error e
            | .ok (specs, m') =>
              .ok (FieldSpec.mk f fieldPathI colName colAlias colIndex chain children :: specs, m')
        else
          match makeSpecFields rest (i + 1) colNames m1 parentChain colPath fieldPath with
          | .error e => .error e
          | .ok (specs, m') =>
            .ok (FieldSpec.mk f fieldPathI colName colAlias colIndex chain [] :: specs, m')
termination_by sizeOf fields
decreasing_by
  all_goals simp only [List.cons.sizeOf_spec]
  all_goals
    first
    | omega
    | (have h1 := sizeOf_derefRtype_le f.type
       have h2 := sizeOf_sfield_type_lt f
       omega)
    | (have h1 := sizeOf_refWalk_fst_le (derefRtype f.type) (fieldPath ++ [i])
       have h2 := sizeOf_derefRtype_le f.type
       have h3 := sizeOf_sfield_type_lt f
       omega)
end

/-- Source `tDestSpec` (querying.go, middle revision): the driver column
list, the alias → type map, and the root `tTypeSpec` (its `rtype` and
`fieldSpecs`, flattened here). -/
structure TDestSpec : Type where
  colNames : List String
  colRtypes : AliasMap
  rootRtype : Rtype
  fieldSpecs : List FieldSpec

/-- The post-walk loop of `prepareDestSpec` (lines 713-721): the first driver
column with no recorded destination yields the `NoColDest` error. -/
def checkColsHaveDest (colNames : List String) (m : AliasMap) : Option Err :=
  match colNames with
  | [] => none
  | c :: rest =>
    if (aliasLookup m c).isSome then checkColsHaveDest rest m
    else some { code := .noColDest, while_ := "preparing destination spec",
                cause := "column " ++ c ++ " does not have a matching destination" }

/-- Whether a type is a pointer kind. -/
def isPtrKind : Rtype → Bool
  | .ptr _ => true
  | _ => false

/-- Source `prepareDestSpec` (querying.go, middle revision, lines 686-724):
validate that the destination type is a struct pointer, walk it with
`traverseMakeSpec`, then require every driver column to have a recorded
destination. The `rows.Columns()` call is modelled by taking the column list
as an argument (its error path is the driver's, not the library's). -/
def prepareDestSpec (rtype : Rtype) (colNames : List String) :
    Except Err TDestSpec :=
  if isPtrKind rtype = false || isStructKind rtype = false then
    .error { code := .invalidDest, while_ := "preparing destination spec",
             cause := "expected destination type to be a struct pointer" }
  else
    match traverseMakeSpec rtype colNames [] [] [] [] with
    | .error e => .error e
    | .ok (fieldSpecs, m) =>
      match checkColsHaveDest colNames m with
      | some e => .error e
      | none =>
        .ok { colNames := colNames, colRtypes := m, rootRtype := rtype,
              fieldSpecs := fieldSpecs }

/-- One decoded row: one cell per driver column, `none` for SQL NULL. This
models the `colPtrs` buffer of `tDecodeState` after `rows.Scan` filled it
(each Go cell is a `**T`; a nil inner pointer is a NULL). -/
abbrev Row := List (Option Rval)

/-- Read the cell for a column index (`state.colPtrs[fieldSpec.colIndex]`).
Negative or out-of-range indices (which the Go code never reads) yield
`none`. -/
def getCol (state : Row) (i : Int) : Option Rval :=
  if i < 0 then none else state.getD i.toNat none

/-- Modelled from the spec: `rvalZeroAtPath` is called by `traverseDecode`
(querying.go, middle revision, line 879) but its body is not among the
provided sources. Per spec §4.4 the null-into-nilable case must "set the
field to its absent representation" (zero it). Modelled as: walk the field
path allocating intermediate records (like `refut.RvalFieldByPathAlloc`) and
set the field to the zero value of its static type (`reflect.Zero`). -/
def rvalZeroAtPath (rootRtype : Rtype) (root : Rval) (path : List Nat) : Rval :=
  updAtPath rootRtype root path (fun ft _ => zeroOfType ft)

/-- The allocation side effect of `refut.RvalFieldByPathAlloc` alone (see the
in-source equivalent `derefAllocStructRvalAt`, query.go): intermediate nil
pointers along the path are allocated, the field itself is untouched. -/
def allocAtPath (rootRtype : Rtype) (root : Rval) (path : List Nat) : Rval :=
  updAtPath rootRtype root path (fun _ fv => fv)

/-- Modelled from the spec: the `set` helper used by `traverseDecode`
(querying.go, middle revision, line 903) is not among the provided sources.
Per spec §4.4 a present cell is assigned into the field (write-through for
pointer leaves); in this aliasing-free value model write-through and
replacement coincide, so `set` is plain assignment at the field path. -/
def setAtPath (rootRtype : Rtype) (root : Rval) (path : List Nat) (v : Rval) : Rval :=
  updAtPath rootRtype root path (fun _ _ => v)

/-- The body of the second loop of `traverseDecode` (querying.go, middle
revision, lines 869-904) for one field spec: skip unmapped columns; a NULL
cell zeroes nilable fields, is fed to the field's `sql.Scanner` when it has
one (any scan error surfaced as `ErrScan`), and otherwise produces `ErrNull`;
a present cell is assigned into the field. `tsRtype` is `typeSpec.rtype`,
used only in the error message. -/
def decodeOneField (rootRtype : Rtype) (tsRtype : Rtype) (state : Row)
    (root : Rval) (fs : FieldSpec) : Rval × Option Err :=
  if fs.colIndex < 0 then (root, none)
  else
    match getCol state fs.colIndex with
    | none =>
      if isRtypeNilable fs.sfield.type then
        (rvalZeroAtPath rootRtype root fs.fieldPath, none)
      else
        match fs.sfield.type with
        | .scannable (some s) =>
          (setAtPath rootRtype (allocAtPath rootRtype root fs.fieldPath) fs.fieldPath (.str s),
           none)
        | .scannable none =>
          (allocAtPath rootRtype root fs.fieldPath,
           some { code := .scan, while_ := "scanning into field",
                  cause := "scan of null failed at field " ++ fs.sfield.name })
        | _ =>
          (allocAtPath rootRtype root fs.fieldPath,
           some { code := .null, while_ := "decoding into struct",
                  cause := "type at field " ++ fs.sfield.name ++
                    " of struct is not nilable, but corresponding column " ++
                    fs.colAlias ++ " was null" })
    | some v => (setAtPath rootRtype root fs.fieldPath v, none)

/-- The second loop of `traverseDecode` over the node's field specs; stops at
the first error (the Go `return`), keeping the mutations made so far. -/
def decodeFields (rootRtype : Rtype) (tsRtype : Rtype) (state : Row)
    (root : Rval) : List FieldSpec → Rval × Option Err
  | [] => (root, none)
  | fs :: rest =>
    match decodeOneField rootRtype tsRtype state root fs with
    | (root1, none) => decodeFields rootRtype tsRtype state root1 rest
    | (root1, some e) => (root1, some e)

mutual
/-- Source `traverseDecode` (querying.go, middle revision, lines 820-907).
First pass (`decodePass1`): recurse into embedded and nested records and
compute `everyColValueIsNil` over the direct mapped leaves. If every such
leaf is NULL, the node is nested (`fieldSpec != nil`) and
`isNilableOrHasNilableNonRootAncestor` holds, return leaving the node's
leaves untouched. Otherwise run the second loop over this node's field
specs. -/
def traverseDecode (rootRtype : Rtype) (root : Rval) (state : Row)
    (tsRtype : Rtype) (fieldSpecs : List FieldSpec)
    (fieldSpec? : Option FieldSpec) : Rval × Option Err :=
  match decodePass1 rootRtype root state fieldSpecs true with
  | (root1, some e, _) => (root1, some e)
  | (root1, none, everyNil) =>
    match fieldSpec? with
    | some fs =>
      if everyNil && isNilableOrHasNilableNonRootAncestor fs.chain then
        (root1, none)
      else
        decodeFields rootRtype tsRtype state root1 fieldSpecs
    | none => decodeFields rootRtype tsRtype state root1 fieldSpecs
termination_by (sizeOf fieldSpecs, 1)

/-- The first loop of `traverseDecode`: skip unexported fields, recurse into
embedded anonymous structs and nested non-scannable struct fields (these
recursive calls decode those subtrees), skip untagged fields, and accumulate
`everyColValueIsNil` from the remaining mapped leaves' cells. -/
def decodePass1 (rootRtype : Rtype) (root : Rval) (state : Row) :
    List FieldSpec → Bool → Rval × Option Err × Bool
  | [], everyNil => (root, none, everyNil)
  | fs :: rest, everyNil =>
    if fs.sfield.exported = false then
      decodePass1 rootRtype root state rest everyNil
    else if fs.sfield.anonymous && isStructKind fs.sfield.type then
      match traverseDecode rootRtype root state fs.sfield.type fs.children (some fs) with
      | (root1, some e) => (root1, some e, everyNil)
      | (root1, none) => decodePass1 rootRtype root1 state rest everyNil
    else if fs.colName = "" then
      decodePass1 rootRtype root state rest everyNil
    else if isRtypeStructNonScannable fs.sfield.type then
      match traverseDecode rootRtype root state fs.sfield.type fs.children (some fs) with
      | (root1, some e) => (root1, some e, everyNil)
      | (root1, none) => decodePass1 rootRtype root1 state rest everyNil
    else if fs.colIndex < 0 then
      decodePass1 rootRtype root state rest everyNil
    else
      let everyNil1 := if (getCol state fs.colIndex).isSome then false else everyNil
      decodePass1 rootRtype root state rest everyNil1
termination_by l _ => (sizeOf l, 0)
decreasing_by
  all_goals simp only [List.cons.sizeOf_spec]
  all_goals
    first
    | (apply Prod.Lex.left
       have h1 := sizeOf_fieldSpec_children_lt fs
       omega)
    | (apply Prod.Lex.left
       omega)
end

/-- The root call of the decoder: `traverseDecode(rval, spec, state,
&spec.typeSpec, nil)` as made by `scanStruct` / `queryStruct`. -/
def traverseDecodeRoot (spec : TDestSpec) (root : Rval) (state : Row) :
    Rval × Option Err :=
  traverseDecode spec.rootRtype root state spec.rootRtype spec.fieldSpecs none

/-! ## Orchestration: `scanOne`, `scanMany`, `Query` -/

/-- Source `scanOne` (querying.go, middle revision, lines 605-623). The
cursor is modelled by the list of rows it will yield plus the error its
`Err()` reports once `Next` returns false; `scanFn` is the dynamically
dispatched `scan.Scan`, which takes a row and the current destination and
returns the updated destination (Go mutates it in place) and an optional
error. -/
def scanOne {δ : Type} (rows : List Row) (cursorErr : Option String)
    (scanFn : Row → δ → δ × Option Err) (dest : δ) : δ × Option Err :=
  match rows with
  | [] =>
    match cursorErr with
    | some e => (dest, some { code := .unknown, while_ := "preparing row", cause := e })
    | none => (dest, some { code := .noRows, while_ := "preparing row",
                            cause := "sql: no rows in result set" })
  | r :: rest =>
    match scanFn r dest with
    | (dest1, some e) => (dest1, some e)
    | (dest1, none) =>
      match rest with
      | _ :: _ => (dest1, some { code := .multipleRows, while_ := "verifying row count",
                                 cause := "expected one row, got multiple" })
      | [] => (dest1, none)

/-- A Go slice value: nil-ness, capacity and elements (the length is
`elems.length`). -/
structure GoSlice : Type where
  isNil : Bool
  cap : Nat
  elems : List Rval

/-- Modelled from the spec: `truncateSliceRval`, called by `scanMany`
(querying.go, middle revision, line 587), is not among the provided sources;
the in-source equivalent (third revision, `queryStructs`) is
`sliceRval.SetLen(0)` with the comment "When the slice is nil, this leaves it
as nil". Truncation resets the length to zero preserving capacity and
nil-ness. -/
def truncateSliceRval (s : GoSlice) : GoSlice :=
  { isNil := s.isNil, cap := s.cap, elems := [] }

/-- Go `reflect.Append` with one element: the length grows by one, the
backing capacity is reused when sufficient and otherwise grows to at least
the new length (modelled minimally as exactly the new length); the result is
never nil. -/
def sliceAppend (s : GoSlice) (v : Rval) : GoSlice :=
  { isNil := false
    cap := if s.elems.length + 1 ≤ s.cap then s.cap else s.elems.length + 1
    elems := s.elems ++ [v] }

/-- The row loop of `scanMany`: each row is scanned into a freshly allocated
element (`reflect.New(elemRtype)`), modelled by `scanFn` returning the
decoded element; on success the element is appended. An error stops the loop
(Go `return err`), keeping the slice as mutated so far. -/
def scanManyLoop (scanFn : Row → Rval × Option Err) :
    List Row → GoSlice → GoSlice × Option Err
  | [], s => (s, none)
  | r :: rest, s =>
    match scanFn r with
    | (_, some e) => (s, some e)
    | (v, none) => scanManyLoop scanFn rest (sliceAppend s v)

/-- Source `scanMany` (querying.go, middle revision, lines 584-603): deref
the destination slice pointer (`refut.RvalDerefAlloc`, modelled by taking the
pointee), truncate exactly once, then decode-and-append each row. -/
def scanMany (rows : List Row) (scanFn : Row → Rval × Option Err)
    (dest : GoSlice) : GoSlice × Option Err :=
  scanManyLoop scanFn rows (truncateSliceRval dest)

/-- The shape of the `dest interface{}` argument of `Query`, as far as
`isNilDest` / `validateDestPtr` / `expectManyRows` observe it. -/
inductive GoDest : Type where
  | nilInterface : GoDest
  | nilPointer : GoDest
  | ptrVal (isSlice : Bool) : GoDest
  | nonPtrValue : GoDest
deriving DecidableEq, Repr

/-- Source `isNilDest` (querying.go, middle revision, lines 909-916): nil
interface, or a typed nil pointer. -/
def isNilDest : GoDest → Bool
  | .nilInterface => true
  | .nilPointer => true
  | _ => false

/-- Source `validateDestPtr` (querying.go, middle revision, lines 918-926):
anything but a non-nil pointer is `ErrInvalidDest`. -/
def validateDestPtr : GoDest → Option Err
  | .ptrVal _ => none
  | _ => some { code := .invalidDest, while_ := "",
                cause := "destination must be non-nil pointer" }

/-- Source `expectManyRows` (querying.go, middle revision, lines 935-937). -/
def expectManyRows : GoDest → Bool
  | .ptrVal isSlice => isSlice
  | _ => false

/-- The driver connection as `Query` consumes it: the error of `ExecContext`
and the error of `QueryContext`. -/
structure Conn : Type where
  execErr : Option String
  queryErr : Option String
deriving Repr

/-- Source `Query` (querying.go, middle revision, lines 529-553): a nil
destination takes the `ExecContext` path, discarding rows; any other
destination must be a non-nil pointer; then a scanner is opened
(`QueryScanner`, wrapping a driver error with "querying rows") and handed to
`scanMany` or `scanOne`. Those two calls are behaviour proved separately
against `scanMany`/`scanOne`; here their results are the `manyRes`/`oneRes`
arguments. -/
def Query (conn : Conn) (dest : GoDest) (manyRes oneRes : Option Err) : Option Err :=
  if isNilDest dest then
    match conn.execErr with
    | some e => some { code := .unknown, while_ := "executing query", cause := e }
    | none => none
  else
    match validateDestPtr dest with
    | some e => some e
    | none =>
      match conn.queryErr with
      | some e => some { code := .unknown, while_ := "querying rows", cause := e }
      | none => if expectManyRows dest then manyRes else oneRes

/-! ## The column-list generator `Cols` -/

/-- Source `sqlIdent` (query.go, second revision): a name plus contained
idents. -/
inductive SqlIdent : Type where
  | mk (name : String) (idents : List SqlIdent) : SqlIdent

def SqlIdent.name : SqlIdent → String
  | .mk n _ => n

def SqlIdent.idents : SqlIdent → List SqlIdent
  | .mk _ l => l

mutual
/-- Source `structRtypeSqlIdents` (query.go, second revision, lines 318-341):
walk the struct's fields (`traverseStructRtypeFields`, which flattens
embedded anonymous structs and skips unexported fields); a tagged
non-scannable struct field becomes a named ident containing the idents of its
type, any other tagged field becomes a plain named ident. -/
def structRtypeSqlIdents (structRtype : Rtype) : List SqlIdent :=
  match hs : derefRtype structRtype with
  | .strct fields => sqlIdentsOfFields fields
  | _ => []
termination_by sizeOf structRtype
decreasing_by
  have h1 := sizeOf_derefRtype_le structRtype
  rw [hs] at h1
  simp at h1
  omega

/-- The flattened field walk feeding `structRtypeSqlIdents`' callback:
unexported fields are skipped, embedded anonymous structs are traversed as if
their fields were in the parent (`traverseStructRtypeFields`), untagged
fields produce nothing. -/
def sqlIdentsOfFields : List Sfield → List SqlIdent
  | [] => []
  | f :: rest =>
    if f.exported = false then sqlIdentsOfFields rest
    else if f.anonymous && isStructKind f.type then
      structRtypeSqlIdents f.type ++ sqlIdentsOfFields rest
    else if sfieldColumnName f = "" then sqlIdentsOfFields rest
    else if isRtypeStructNonScannable f.type then
      SqlIdent.mk (sfieldColumnName f) (structRtypeSqlIdents (derefRtype f.type))
        :: sqlIdentsOfFields rest
    else
      SqlIdent.mk (sfieldColumnName f) [] :: sqlIdentsOfFields rest
termination_by fields => sizeOf fields
decreasing_by
  all_goals simp only [List.cons.sizeOf_spec]
  all_goals
    first
    | omega
    | (have h1 := sizeOf_sfield_type_lt f
       omega)
    | (have h1 := sizeOf_sfield_type_lt f
       have h2 := sizeOf_derefRtype_le f.type
       omega)
end

/-- The path-rendering loop of `appendIdentPath` (query.go, second revision,
lines 379-396): the first hop is parenthesised, later hops are plain quoted,
each followed by a dot. -/
def identPathPrefix : List String → Bool → String
  | [], _ => ""
  | n :: rest, first =>
    (if first then "(\"" ++ n ++ "\")" else "\"" ++ n ++ "\"") ++ "." ++
      identPathPrefix rest false

/-- Source `appendIdentPath`: `("a1")."a2"....."an"."ident"` appended to
`buf`. -/
def appendIdentPath (buf : String) (path : List String) (ident : String) : String :=
  buf ++ identPathPrefix path true ++ "\"" ++ ident ++ "\""

/-- The alias-body loop of `appendIdentAlias`: `a1.a2.....an.` -/
def aliasDots : List String → String
  | [] => ""
  | n :: rest => n ++ "." ++ aliasDots rest

/-- Source `appendIdentAlias`: `"a1.a2.....an.ident"` appended to `buf`. -/
def appendIdentAlias (buf : String) (path : List String) (ident : String) : String :=
  buf ++ "\"" ++ aliasDots path ++ ident ++ "\""

mutual
/-- Source `sqlIdent.appendSelect` (query.go, second revision, lines
352-377): a leaf ident (no contained idents) renders one selector — preceded
by `", "` when the buffer is non-empty; root-level leaves render only the
alias, nested leaves render path, `" as "`, alias. A named interior ident
extends the path and renders its contained idents. -/
def appendSelect : SqlIdent → String → List String → String
  | .mk name [], buf, path =>
    if name = "" then buf
    else
      let buf1 := if buf.length > 0 then buf ++ ", " else buf
      if path.length = 0 then appendIdentAlias buf1 path name
      else appendIdentAlias (appendIdentPath buf1 path name ++ " as ") path name
  | .mk name (id0 :: ids), buf, path =>
    let path1 := if name = "" then path else path ++ [name]
    appendSelectList (id0 :: ids) buf path1
termination_by self _ _ => sizeOf self

/-- The `for _, ident := range self.idents` loop of `appendSelect`. -/
def appendSelectList : List SqlIdent → String → List String → String
  | [], buf, _ => buf
  | id :: rest, buf, path => appendSelectList rest (appendSelect id buf path) path
termination_by l _ _ => sizeOf l
end

/-- Source `sqlIdent.selectString`. -/
def selectString (self : SqlIdent) : String :=
  appendSelect self "" []

/-- Source `Cols` (querying.go, third revision, lines 961-968): deref the
destination type, unwrap one slice layer, and render the select fragment of
its idents. -/
def Cols (t : Rtype) : String :=
  let rtype :=
    match derefRtype t with
    | .slice e => derefRtype e
    | r => r
  selectString (.mk "" (structRtypeSqlIdents rtype))

/-! ## Path algebra -/

/-- Whether the allocating walk of `updAtPath` reaches its target: at each
pointer layer the value is a pointer (allocated on the way when nil), at each
struct layer the value is a struct and the field index is in range. This is
the regime in which the Go walk does not panic. -/
def UpdWalks : Rtype → Rval → List Nat → Bool
  | _, _, [] => true
  | .ptr e, .ptr w, path => UpdWalks e (w.getD (zeroOfType e)) path
  | .strct fts, .strct vs, i :: rest =>
    decide (i < vs.length) && UpdWalks (sfieldTypeAt fts i) (vs.getD i (.str "")) rest
  | _, _, _ :: _ => false
termination_by t _ _ => sizeOf t
decreasing_by
  all_goals simp only [Rtype.ptr.sizeOf_spec, Rtype.strct.sizeOf_spec]
  · omega
  · exact sizeOf_sfieldTypeAt_lt fts i

/-! Clean equation lemmas for the path walkers (their pattern matches overlap,
so the auto-generated equations carry side conditions). -/

@[simp] theorem getAtPath_nil (v : Rval) : getAtPath v [] = some v := by
  rw [getAtPath.eq_def]
  split <;> simp_all

@[simp] theorem getAtPath_ptr_none (i : Nat) (rest : List Nat) :
    getAtPath (.ptr none) (i :: rest) = none := by
  rw [getAtPath.eq_def]

@[simp] theorem getAtPath_ptr_some (w : Rval) (i : Nat) (rest : List Nat) :
    getAtPath (.ptr (some w)) (i :: rest) = getAtPath w (i :: rest) := by
  rw [getAtPath.eq_def]

@[simp] theorem getAtPath_strct (vs : List Rval) (i : Nat) (rest : List Nat) :
    getAtPath (.strct vs) (i :: rest) = (vs.get? i).bind (fun fv => getAtPath fv rest) := by
  rw [getAtPath.eq_def]

@[simp] theorem getAtPath_str (s : String) (i : Nat) (rest : List Nat) :
    getAtPath (.str s) (i :: rest) = none := by
  rw [getAtPath.eq_def]

@[simp] theorem getAtPath_slc (b : Bool) (c : Nat) (es : List Rval) (i : Nat) (rest : List Nat) :
    getAtPath (.slc b c es) (i :: rest) = none := by
  rw [getAtPath.eq_def]

@[simp] theorem updAtPath_nil (t : Rtype) (v : Rval) (f : Rtype → Rval → Rval) :
    updAtPath t v [] f = f t v := by
  rw [updAtPath.eq_def]
  split <;> simp_all

@[simp] theorem updAtPath_ptr (e : Rtype) (w : Option Rval) (i : Nat) (rest : List Nat)
    (f : Rtype → Rval → Rval) :
    updAtPath (.ptr e) (.ptr w) (i :: rest) f =
      .ptr (some (updAtPath e (w.getD (zeroOfType e)) (i :: rest) f)) := by
  rw [updAtPath.eq_def]

@[simp] theorem updAtPath_strct (fts : List Sfield) (vs : List Rval) (i : Nat)
    (rest : List Nat) (f : Rtype → Rval → Rval) :
    updAtPath (.strct fts) (.strct vs) (i :: rest) f =
      .strct (vs.set i (updAtPath (sfieldTypeAt fts i) (vs.getD i (.str "")) rest f)) := by
  rw [updAtPath.eq_def]

@[simp] theorem pathType_nil (t : Rtype) : pathType t [] = t := by
  rw [pathType.eq_def]
  split <;> simp_all

@[simp] theorem pathType_ptr (e : Rtype) (i : Nat) (rest : List Nat) :
    pathType (.ptr e) (i :: rest) = pathType e (i :: rest) := by
  rw [pathType.eq_def]

@[simp] theorem pathType_strct (fts : List Sfield) (i : Nat) (rest : List Nat) :
    pathType (.strct fts) (i :: rest) = pathType (sfieldTypeAt fts i) rest := by
  rw [pathType.eq_def]

@[simp] theorem UpdWalks_nil (t : Rtype) (v : Rval) : UpdWalks t v [] = true := by
  rw [UpdWalks.eq_def]
  split <;> simp_all

@[simp] theorem UpdWalks_ptr (e : Rtype) (w : Option Rval) (i : Nat) (rest : List Nat) :
    UpdWalks (.ptr e) (.ptr w) (i :: rest) = UpdWalks e (w.getD (zeroOfType e)) (i :: rest) := by
  rw [UpdWalks.eq_def]

@[simp] theorem UpdWalks_strct (fts : List Sfield) (vs : List Rval) (i : Nat) (rest : List Nat) :
    UpdWalks (.strct fts) (.strct vs) (i :: rest) =
      (decide (i < vs.length) && UpdWalks (sfieldTypeAt fts i) (vs.getD i (.str "")) rest) := by
  rw [UpdWalks.eq_def]

/-- Two field paths diverge: after a shared prefix they continue with
different indices. -/
inductive Diverges : List Nat → List Nat → Prop where
  | head {i j : Nat} (p q : List Nat) (hij : i ≠ j) : Diverges (i :: p) (j :: q)
  | cons (i : Nat) {p q : List Nat} (h : Diverges p q) : Diverges (i :: p) (i :: q)

theorem Diverges.q_ne_nil {p q : List Nat} (h : Diverges p q) : q ≠ [] := by
  cases h <;> simp

theorem Diverges.p_ne_nil {p q : List Nat} (h : Diverges p q) : p ≠ [] := by
  cases h <;> simp

/-- `updAtPath` leaves the value unchanged when the type/value pair matches
none of the walkable shapes (the Go walk would panic there). -/
theorem updAtPath_mismatch (t : Rtype) (v : Rval) (path : List Nat)
    (f : Rtype → Rval → Rval) (hne : path ≠ [])
    (hp : ∀ e w, t = .ptr e → v = .ptr w → False)
    (hs : ∀ fts vs i rest, t = .strct fts → v = .strct vs → path = i :: rest → False) :
    updAtPath t v path f = v := by
  rw [updAtPath.eq_def]
  split
  · simp_all
  · exact ((hp _ _ rfl rfl).elim)
  · exact ((hs _ _ _ _ rfl rfl rfl).elim)
  · rfl

theorem list_get?_eq_some_lt {α : Type} {l : List α} {i : Nat} {a : α}
    (h : l.get? i = some a) : i < l.length := by
  rw [List.get?_eq_getElem?] at h
  exact (List.getElem?_eq_some_iff.mp h).1

theorem list_getD_of_get? {α : Type} {l : List α} {i : Nat} {a : α} (d : α)
    (h : l.get? i = some a) : l.getD i d = a := by
  rw [List.getD_eq_getElem?_getD, ← List.get?_eq_getElem?, h]
  rfl

/-- Frame property of the allocating update: a write along a path `q` that
diverges from `p` does not change the value read at `p`. -/
theorem getAtPath_updAtPath_diverge (t : Rtype) (v : Rval) (q : List Nat)
    (f : Rtype → Rval → Rval) :
    ∀ p x, Diverges p q → getAtPath v p = some x →
      getAtPath (updAtPath t v q f) p = some x := by
  induction t, v, q, f using updAtPath.induct with
  | case1 t v f =>
    intro p x hdiv _
    exact absurd rfl hdiv.q_ne_nil
  | case2 e w path f hne ih =>
    intro p x hdiv hget
    rcases List.exists_cons_of_ne_nil hdiv.q_ne_nil with ⟨q0, q', hq⟩
    rcases List.exists_cons_of_ne_nil hdiv.p_ne_nil with ⟨p0, p', hp⟩
    subst hq hp
    cases w with
    | none => simp at hget
    | some w' =>
      rw [updAtPath_ptr, getAtPath_ptr_some]
      rw [getAtPath_ptr_some] at hget
      exact ih (p0 :: p') x hdiv hget
  | case3 fts vs i rest f ih =>
    intro p x hdiv hget
    rw [updAtPath_strct]
    cases hdiv with
    | head p' q' hij =>
      rename_i pi
      rw [getAtPath_strct] at hget ⊢
      rcases hv : vs.get? pi with _ | fv
      · rw [hv] at hget; simp at hget
      · rw [hv] at hget
        have hset : (vs.set i (updAtPath (sfieldTypeAt fts i) (vs.getD i (.str "")) rest f)).get? pi = some fv := by
          rw [List.get?_eq_getElem?] at hv ⊢
          rw [List.getElem?_set_ne (fun h => hij h.symm)]
          exact hv
        rw [hset]
        exact hget
    | cons _ hdiv' =>
      rename_i p'
      rw [getAtPath_strct] at hget ⊢
      rcases hv : vs.get? i with _ | fv
      · rw [hv] at hget; simp at hget
      · rw [hv] at hget
        have hlen : i < vs.length := list_get?_eq_some_lt hv
        have hgetD : vs.getD i (.str "") = fv := list_getD_of_get? _ hv
        have hset : (vs.set i (updAtPath (sfieldTypeAt fts i) (vs.getD i (.str "")) rest f)).get? i =
            some (updAtPath (sfieldTypeAt fts i) (vs.getD i (.str "")) rest f) := by
          rw [List.get?_eq_getElem?]
          rw [List.getElem?_set_self (by simpa using hlen)]
        rw [hset]
        simp only [Option.some_bind]
        exact ih p' x hdiv' (by rw [hgetD]; exact hget)
  | case4 t v path f hne hp hs =>
    intro p x hdiv hget
    rw [updAtPath_mismatch t v path f (fun h => hne h) hp hs]
    exact hget

theorem UpdWalks_mismatch (t : Rtype) (v : Rval) (path : List Nat)
    (hne : path ≠ [])
    (hp : ∀ e w, t = .ptr e → v = .ptr w → False)
    (hs : ∀ fts vs, t = .strct fts → v = .strct vs → False) :
    UpdWalks t v path = false := by
  rw [UpdWalks.eq_def]
  split
  · simp_all
  · exact ((hp _ _ rfl rfl).elim)
  · exact ((hs _ _ rfl rfl).elim)
  · rfl

theorem list_getD_set_ne {α : Type} (l : List α) (i j : Nat) (u : α) (d : α)
    (hij : j ≠ i) : (l.set i u).getD j d = l.getD j d := by
  rw [List.getD_eq_getElem?_getD, List.getD_eq_getElem?_getD,
    List.getElem?_set_ne (fun h => hij h.symm)]

theorem list_getD_set_self {α : Type} (l : List α) (i : Nat) (u : α) (d : α)
    (hlen : i < l.length) : (l.set i u).getD i d = u := by
  rw [List.getD_eq_getElem?_getD, List.getElem?_set_self (by simpa using hlen)]
  rfl

/-- A write along a diverging path `q` does not break the walkability of
`p`. -/
theorem UpdWalks_updAtPath_diverge (t : Rtype) (v : Rval) (q : List Nat)
    (f : Rtype → Rval → Rval) :
    ∀ p, Diverges p q → UpdWalks t v p = true →
      UpdWalks t (updAtPath t v q f) p = true := by
  induction t, v, q, f using updAtPath.induct with
  | case1 t v f =>
    intro p hdiv _
    exact absurd rfl hdiv.q_ne_nil
  | case2 e w path f hne ih =>
    intro p hdiv hw
    rcases List.exists_cons_of_ne_nil hdiv.q_ne_nil with ⟨q0, q', hq⟩
    rcases List.exists_cons_of_ne_nil hdiv.p_ne_nil with ⟨p0, p', hp⟩
    subst hq hp
    rw [updAtPath_ptr, UpdWalks_ptr]
    rw [UpdWalks_ptr] at hw
    have : (some (updAtPath e (w.getD (zeroOfType e)) (q0 :: q') f)).getD (zeroOfType e) =
        updAtPath e (w.getD (zeroOfType e)) (q0 :: q') f := rfl
    rw [this]
    exact ih (p0 :: p') hdiv hw
  | case3 fts vs i rest f ih =>
    intro p hdiv hw
    rw [updAtPath_strct]
    cases hdiv with
    | head p' q' hij =>
      rename_i pi
      rw [UpdWalks_strct] at hw ⊢
      simp only [List.length_set]
      rw [list_getD_set_ne _ _ _ _ _ hij]
      exact hw
    | cons _ hdiv' =>
      rename_i p'
      rw [UpdWalks_strct] at hw ⊢
      simp only [List.length_set]
      simp only [Bool.and_eq_true, decide_eq_true_eq] at hw
      rcases hw with ⟨hlen, hw'⟩
      rw [list_getD_set_self _ _ _ _ hlen]
      simp only [Bool.and_eq_true, decide_eq_true_eq]
      exact ⟨hlen, ih p' hdiv' hw'⟩
  | case4 t v path f hne hp hs =>
    intro p hdiv hw
    rw [updAtPath_mismatch t v path f (fun h => hne h) hp hs]
    exact hw

/-- Writing a value computed only from the field's static type along a
walkable path makes that value readable at the path. -/
theorem getAtPath_updAtPath_const (t : Rtype) (v : Rval) (p : List Nat)
    (f : Rtype → Rval → Rval) (g : Rtype → Rval)
    (hconst : ∀ ft fv, f ft fv = g ft) :
    UpdWalks t v p = true →
      getAtPath (updAtPath t v p f) p = some (g (pathType t p)) := by
  induction t, v, p, f using updAtPath.induct with
  | case1 t v f =>
    intro _
    rw [updAtPath_nil, pathType_nil, hconst]
    simp
  | case2 e w path f hne ih =>
    intro hw
    rcases List.exists_cons_of_ne_nil (fun h => hne h) with ⟨p0, p', hp⟩
    subst hp
    rw [updAtPath_ptr, getAtPath_ptr_some, pathType_ptr]
    rw [UpdWalks_ptr] at hw
    exact ih hconst hw
  | case3 fts vs i rest f ih =>
    intro hw
    rw [UpdWalks_strct] at hw
    simp only [Bool.and_eq_true, decide_eq_true_eq] at hw
    rcases hw with ⟨hlen, hw'⟩
    rw [updAtPath_strct, getAtPath_strct, pathType_strct]
    have hset : (vs.set i (updAtPath (sfieldTypeAt fts i) (vs.getD i (.str "")) rest f)).get? i =
        some (updAtPath (sfieldTypeAt fts i) (vs.getD i (.str "")) rest f) := by
      rw [List.get?_eq_getElem?]
      rw [List.getElem?_set_self (by simpa using hlen)]
    rw [hset]
    simp only [Option.some_bind]
    exact ih hconst hw'
  | case4 t v path f hne hp hs =>
    intro hw
    rw [UpdWalks_mismatch t v path (fun h => hne h) hp
      (fun fts vs h1 h2 => by
        rcases List.exists_cons_of_ne_nil (fun h => hne h) with ⟨p0, p', hp'⟩
        exact hs fts vs p0 p' h1 h2 hp')] at hw
    cases hw

/-! ## Decode-loop lemmas -/

theorem decodeFields_append (rootRtype tsRtype : Rtype) (state : Row)
    (l1 l2 : List FieldSpec) (root : Rval) :
    decodeFields rootRtype tsRtype state root (l1 ++ l2) =
      match decodeFields rootRtype tsRtype state root l1 with
      | (r1, none) => decodeFields rootRtype tsRtype state r1 l2
      | (r1, some e) => (r1, some e) := by
  induction l1 generalizing root with
  | nil => simp [decodeFields]
  | cons fs rest ih =>
    rw [List.cons_append, decodeFields, decodeFields]
    rcases decodeOneField rootRtype tsRtype state root fs with ⟨r1, _ | e⟩
    · exact ih r1
    · rfl

/-- One iteration of the second decode loop only writes at the processed
field's path: reads and walkability at a diverging path are preserved. -/
theorem decodeOneField_preserves (rootRtype tsRtype : Rtype) (state : Row)
    (root : Rval) (fs : FieldSpec) (p : List Nat) (x : Rval)
    (hdiv : Diverges p fs.fieldPath)
    (hget : getAtPath root p = some x)
    (hw : UpdWalks rootRtype root p = true) :
    getAtPath (decodeOneField rootRtype tsRtype state root fs).1 p = some x ∧
    UpdWalks rootRtype (decodeOneField rootRtype tsRtype state root fs).1 p = true := by
  have h1 : getAtPath (allocAtPath rootRtype root fs.fieldPath) p = some x :=
    getAtPath_updAtPath_diverge _ _ _ _ p x hdiv hget
  have h2 : UpdWalks rootRtype (allocAtPath rootRtype root fs.fieldPath) p = true :=
    UpdWalks_updAtPath_diverge _ _ _ _ p hdiv hw
  rw [decodeOneField]
  split
  · exact ⟨hget, hw⟩
  · split
    · split
      · exact ⟨getAtPath_updAtPath_diverge _ _ _ _ p x hdiv hget,
          UpdWalks_updAtPath_diverge _ _ _ _ p hdiv hw⟩
      · split
        · exact ⟨getAtPath_updAtPath_diverge _ _ _ _ p x hdiv h1,
            UpdWalks_updAtPath_diverge _ _ _ _ p hdiv h2⟩
        · exact ⟨h1, h2⟩
        · exact ⟨h1, h2⟩
    · exact ⟨getAtPath_updAtPath_diverge _ _ _ _ p x hdiv hget,
        UpdWalks_updAtPath_diverge _ _ _ _ p hdiv hw⟩

/-- The second decode loop preserves reads and walkability at a path that
diverges from every processed field's path. -/
theorem decodeFields_preserves (rootRtype tsRtype : Rtype) (state : Row)
    (l : List FieldSpec) (root : Rval) (p : List Nat) (x : Rval)
    (hdiv : ∀ g ∈ l, Diverges p g.fieldPath)
    (hget : getAtPath root p = some x)
    (hw : UpdWalks rootRtype root p = true) :
    getAtPath (decodeFields rootRtype tsRtype state root l).1 p = some x ∧
    UpdWalks rootRtype (decodeFields rootRtype tsRtype state root l).1 p = true := by
  induction l generalizing root with
  | nil => exact ⟨hget, hw⟩
  | cons fs rest ih =>
    have h1 := decodeOneField_preserves rootRtype tsRtype state root fs p x
      (hdiv fs (by simp)) hget hw
    rw [decodeFields]
    rcases hone : decodeOneField rootRtype tsRtype state root fs with ⟨r1, _ | e⟩
    · rw [hone] at h1
      exact ih r1 (fun g hg => hdiv g (by simp [hg])) h1.1 h1.2
    · rw [hone] at h1
      exact h1

/-- A write at `p` itself keeps `p` walkable (the walk does not inspect the
final field's value). -/
theorem UpdWalks_updAtPath_self (t : Rtype) (v : Rval) (p : List Nat)
    (f : Rtype → Rval → Rval) :
    UpdWalks t v p = true → UpdWalks t (updAtPath t v p f) p = true := by
  induction t, v, p, f using updAtPath.induct with
  | case1 t v f =>
    intro _
    simp
  | case2 e w path f hne ih =>
    intro hw
    rcases List.exists_cons_of_ne_nil (fun h => hne h) with ⟨p0, p', hp⟩
    subst hp
    rw [updAtPath_ptr, UpdWalks_ptr]
    rw [UpdWalks_ptr] at hw
    exact ih hw
  | case3 fts vs i rest f ih =>
    intro hw
    rw [UpdWalks_strct] at hw
    simp only [Bool.and_eq_true, decide_eq_true_eq] at hw
    rcases hw with ⟨hlen, hw'⟩
    rw [updAtPath_strct, UpdWalks_strct]
    simp only [List.length_set, Bool.and_eq_true, decide_eq_true_eq]
    rw [list_getD_set_self _ _ _ _ hlen]
    exact ⟨hlen, ih hw'⟩
  | case4 t v path f hne hp hs =>
    intro hw
    rw [updAtPath_mismatch t v path f (fun h => hne h) hp hs]
    exact hw

/-- Walkability-only variant of `decodeOneField_preserves` (no prior read
needed). -/
theorem decodeOneField_preserves_walk (rootRtype tsRtype : Rtype) (state : Row)
    (root : Rval) (fs : FieldSpec) (p : List Nat)
    (hdiv : Diverges p fs.fieldPath)
    (hw : UpdWalks rootRtype root p = true) :
    UpdWalks rootRtype (decodeOneField rootRtype tsRtype state root fs).1 p = true := by
  have h2 : UpdWalks rootRtype (allocAtPath rootRtype root fs.fieldPath) p = true :=
    UpdWalks_updAtPath_diverge _ _ _ _ p hdiv hw
  rw [decodeOneField]
  split
  · exact hw
  · split
    · split
      · exact UpdWalks_updAtPath_diverge _ _ _ _ p hdiv hw
      · split
        · exact UpdWalks_updAtPath_diverge _ _ _ _ p hdiv h2
        · exact h2
        · exact h2
    · exact UpdWalks_updAtPath_diverge _ _ _ _ p hdiv hw

theorem decodeFields_preserves_walk (rootRtype tsRtype : Rtype) (state : Row)
    (l : List FieldSpec) (root : Rval) (p : List Nat)
    (hdiv : ∀ g ∈ l, Diverges p g.fieldPath)
    (hw : UpdWalks rootRtype root p = true) :
    UpdWalks rootRtype (decodeFields rootRtype tsRtype state root l).1 p = true := by
  induction l generalizing root with
  | nil => exact hw
  | cons fs rest ih =>
    have h1 := decodeOneField_preserves_walk rootRtype tsRtype state root fs p
      (hdiv fs (by simp)) hw
    rw [decodeFields]
    rcases hone : decodeOneField rootRtype tsRtype state root fs with ⟨r1, _ | e⟩
    · rw [hone] at h1
      exact ih r1 (fun g hg => hdiv g (by simp [hg])) h1
    · rw [hone] at h1
      exact h1

/-- The Go "absent" representation of a value: nil pointer or nil slice. -/
def isAbsentRval : Rval → Bool
  | .ptr none => true
  | .slc true _ _ => true
  | _ => false

theorem zeroOfType_absent_of_nilable (t : Rtype) (h : isRtypeNilable t = true) :
    isAbsentRval (zeroOfType t) = true := by
  cases t <;> simp_all [isRtypeNilable, isNilableRtype, zeroOfType, isAbsentRval]

/-! ## Theorems -/

/-! ## Plan-builder invariants (C3) -/

/-- Type-level residue of the `role`-tag walk (`refWalk` without the path
bookkeeping). -/
def refWalkT : Rtype → Rtype
  | t@(.strct (head :: _)) =>
    if head.roleTag = "ref" then refWalkT head.type else t
  | t => t
termination_by t => sizeOf t
decreasing_by
  have h1 := sizeOf_sfield_type_lt head
  simp
  omega

theorem refWalk_fst_eq_refWalkT (t : Rtype) (p : List Nat) :
    (refWalk t p).1 = refWalkT t := by
  induction t, p using refWalk.induct with
  | case1 head tail fieldPath hrole ih =>
    rw [refWalk, if_pos hrole, refWalkT, if_pos hrole]
    exact ih
  | case2 head tail fieldPath hrole =>
    rw [refWalk, if_neg hrole, refWalkT, if_neg hrole]
  | case3 t fieldPath h =>
    have heq : refWalk t fieldPath = (t, fieldPath) := by
      rw [refWalk.eq_def]
      split
      · rename_i h1 h2 h3
        exact absurd rfl (h h2 h3)
      · rfl
    have heq2 : refWalkT t = t := by
      rw [refWalkT.eq_def]
      split
      · rename_i h1 h2
        exact absurd rfl (h h1 h2)
      · rfl
    rw [heq, heq2]

mutual
/-- The ordered list of aliases `traverseMakeSpec` records for a type (the
insertion order into `colRtypes`). -/
def aliasListOfType (typ : Rtype) (colPath : List String) : List String :=
  match ha : derefRtype typ with
  | .strct fields => aliasListFields fields colPath
  | _ => []
termination_by sizeOf typ
decreasing_by
  have h1 := sizeOf_derefRtype_le typ
  rw [ha] at h1
  simp at h1
  omega

/-- The aliases recorded by the loop of `traverseMakeSpec` over a field
list. -/
def aliasListFields : List Sfield → List String → List String
  | [], _ => []
  | f :: rest, colPath =>
    if f.exported = false then aliasListFields rest colPath
    else if f.anonymous && isStructKind f.type then
      aliasListOfType (derefRtype f.type) colPath ++ aliasListFields rest colPath
    else if sfieldColumnName f = "" then aliasListFields rest colPath
    else
      if isRtypeStructNonScannable (refWalkT (derefRtype f.type)) then
        String.intercalate "." (colPath ++ [sfieldColumnName f]) ::
          (aliasListOfType (refWalkT (derefRtype f.type))
              (colPath ++ [sfieldColumnName f]) ++
            aliasListFields rest colPath)
      else
        String.intercalate "." (colPath ++ [sfieldColumnName f]) ::
          aliasListFields rest colPath
termination_by fields _ => sizeOf fields
decreasing_by
  all_goals simp only [List.cons.sizeOf_spec]
  all_goals
    first
    | omega
    | (have h1 := sizeOf_sfield_type_lt f
       have h2 := sizeOf_derefRtype_le f.type
       omega)
    | (have h1 := sizeOf_refWalk_fst_le (derefRtype f.type) []
       have h2 := sizeOf_derefRtype_le f.type
       have h3 := sizeOf_sfield_type_lt f
       rw [refWalk_fst_eq_refWalkT (derefRtype f.type) []] at h1
       omega)
end

/-- The keys of an alias map, in insertion order. -/
def aliasKeys (m : AliasMap) : List String := m.map Prod.fst

theorem aliasLookup_isSome_iff (m : AliasMap) (k : String) :
    (aliasLookup m k).isSome = true ↔ k ∈ aliasKeys m := by
  induction m with
  | nil => simp [aliasLookup, aliasKeys]
  | cons kv rest ih =>
    rcases kv with ⟨k', t⟩
    by_cases h : k' = k
    · subst h
      simp [aliasLookup, aliasKeys]
    · simp only [aliasLookup, if_neg h, aliasKeys, List.map_cons, List.mem_cons]
      rw [show (rest.map Prod.fst) = aliasKeys rest from rfl, ih]
      constructor
      · intro hx
        exact Or.inr hx
      · rintro (hx | hx)
        · exact absurd hx.symm h
        · exact hx

theorem aliasKeys_append (m1 m2 : AliasMap) :
    aliasKeys (m1 ++ m2) = aliasKeys m1 ++ aliasKeys m2 := by
  simp [aliasKeys]

/-- The four-part invariant of the plan-building walk relative to the alias
map `m` it starts from and the aliases `al` it is about to record:
any error is `RedundantCol`; on success the recorded keys are exactly `m`'s
keys followed by `al`; success preserves key uniqueness; and key uniqueness
of the would-be result guarantees success. -/
def MSInv (result : Except Err (List FieldSpec × AliasMap))
    (m : AliasMap) (al : List String) : Prop :=
  (∀ e, result = .error e → e.code = .redundantCol) ∧
  (∀ specs m', result = .ok (specs, m') → aliasKeys m' = aliasKeys m ++ al) ∧
  (∀ specs m', result = .ok (specs, m') →
    (aliasKeys m).Nodup → (aliasKeys m').Nodup) ∧
  ((aliasKeys m ++ al).Nodup → ∃ specs m', result = .ok (specs, m'))

/-- Prefixing one fresh key to the pending aliases: the invariant relative to
the extended map is the invariant relative to the original map with the key
prepended to the alias list. -/
theorem MSInv_insert (result : Except Err (List FieldSpec × AliasMap))
    (m : AliasMap) (a : String) (t : Rtype) (al : List String)
    (hfresh : (aliasLookup m a).isSome = false)
    (h : MSInv result (m ++ [(a, t)]) al) : MSInv result m (a :: al) := by
  have hmem : a ∉ aliasKeys m := by
    intro hm
    rw [← aliasLookup_isSome_iff] at hm
    rw [hfresh] at hm
    cases hm
  have hkeys : aliasKeys (m ++ [(a, t)]) = aliasKeys m ++ [a] := by
    simp [aliasKeys]
  rcases h with ⟨hE, hK, hN, hS⟩
  refine ⟨hE, ?_, ?_, ?_⟩
  · intro specs m' hr
    rw [hK specs m' hr, hkeys]
    simp
  · intro specs m' hr hnd
    refine hN specs m' hr ?_
    rw [hkeys]
    simp [List.nodup_append, hnd, hmem]
  · intro hnd
    refine hS ?_
    rw [hkeys]
    simpa using hnd

/-- The invariant for a result that only post-processes the spec list of an
inner result (sibling consing / children wrapping), keeping the map. -/
theorem MSInv_map (r : Except Err (List FieldSpec × AliasMap))
    (g : List FieldSpec → List FieldSpec) (m : AliasMap) (al : List String)
    (h : MSInv r m al) :
    MSInv (match r with
      | .error e => .error e
      | .ok (specs, m') => .ok (g specs, m')) m al := by
  rcases h with ⟨hE, hK, hN, hS⟩
  rcases r with e | ⟨specs, m'⟩
  · exact ⟨fun e' he => hE e' (by cases he; rfl), by simp, by simp, fun hnd => by
      rcases hS hnd with ⟨s, m'', hok⟩
      cases hok⟩
  · refine ⟨by simp, ?_, ?_, ?_⟩
    · intro s mm h'
      cases h'
      exact hK specs m' rfl
    · intro s mm h' hnd
      cases h'
      exact hN specs m' rfl hnd
    · intro _
      exact ⟨g specs, m', rfl⟩

/-- Sequencing two walk steps: first `r1` from `m`, then `r2` from the map
`r1` produced, combining the spec lists with `g`. -/
theorem MSInv_comp (r1 : Except Err (List FieldSpec × AliasMap))
    (r2 : AliasMap → Except Err (List FieldSpec × AliasMap))
    (g : List FieldSpec → List FieldSpec → List FieldSpec)
    (m : AliasMap) (al1 al2 : List String)
    (h1 : MSInv r1 m al1)
    (h2 : ∀ specs1 m1, r1 = .ok (specs1, m1) → MSInv (r2 m1) m1 al2) :
    MSInv (match r1 with
      | .error e => .error e
      | .ok (specs1, m1) =>
        match r2 m1 with
        | .error e => .error e
        | .ok (specs2, m2) => .ok (g specs1 specs2, m2)) m (al1 ++ al2) := by
  rcases r1 with e | ⟨specs1, m1⟩
  · rcases h1 with ⟨hE1, hK1, hN1, hS1⟩
    refine ⟨?_, by simp, by simp, ?_⟩
    · intro e' he
      cases he
      exact hE1 _ rfl
    · intro hnd
      exfalso
      have hnd1 : (aliasKeys m ++ al1).Nodup :=
        (List.sublist_append_left (aliasKeys m ++ al1) al2).nodup
          (by rwa [List.append_assoc])
      rcases hS1 hnd1 with ⟨s, mm, hok⟩
      cases hok
  · have hK := h1.2.1 specs1 m1 rfl
    have hN := h1.2.2.1 specs1 m1 rfl
    have h2' := h2 specs1 m1 rfl
    show MSInv (match r2 m1 with
      | .error e => .error e
      | .ok (specs2, m2) => .ok (g specs1 specs2, m2)) m (al1 ++ al2)
    rcases hr2 : r2 m1 with e | ⟨specs2, m2⟩ <;> rw [hr2] at h2'
    · rcases h2' with ⟨hE2, hK2, hN2, hS2⟩
      refine ⟨?_, by simp, by simp, ?_⟩
      · intro e' he
        cases he
        exact hE2 _ rfl
      · intro hnd
        exfalso
        have hnd2 : (aliasKeys m1 ++ al2).Nodup := by
          rw [hK, List.append_assoc]
          exact hnd
        rcases hS2 hnd2 with ⟨s, mm, hok⟩
        cases hok
    · rcases h2' with ⟨hE2, hK2, hN2, hS2⟩
      refine ⟨by simp, ?_, ?_, ?_⟩
      · intro s mm h'
        cases h'
        rw [hK2 _ _ rfl, hK, List.append_assoc]
      · intro s mm h' hnd
        cases h'
        exact hN2 _ _ rfl (hN hnd)
      · intro _
        exact ⟨g specs1 specs2, m2, rfl⟩

/-- C2: in the second decode loop (`traverseDecode`'s write pass, which runs
exactly when the enclosing record is not elided), a mapped field
(`colIndex ≥ 0`) whose column cell is NULL and whose static type is nilable
is set to the zero (absent) value of its static type — overwriting whatever
was there — and the loop reports no error for it; the zero survives the rest
of the loop (the other processed fields live at diverging paths). -/
theorem decodeFields_null_zeroes_nilable (rootRtype tsRtype : Rtype)
    (state : Row) (root : Rval) (pre post : List FieldSpec) (fs : FieldSpec)
    (hdiv : ∀ g ∈ pre ++ post, Diverges fs.fieldPath g.fieldPath)
    (hcol : 0 ≤ fs.colIndex)
    (hnull : getCol state fs.colIndex = none)
    (hnil : isRtypeNilable fs.sfield.type = true)
    (hw : UpdWalks rootRtype root fs.fieldPath = true)
    (hok : (decodeFields rootRtype tsRtype state root (pre ++ fs :: post)).2 = none) :
    getAtPath (decodeFields rootRtype tsRtype state root (pre ++ fs :: post)).1
        fs.fieldPath
      = some (zeroOfType (pathType rootRtype fs.fieldPath)) ∧
    isAbsentRval (zeroOfType fs.sfield.type) = true := by
  have happ := decodeFields_append rootRtype tsRtype state pre (fs :: post) root
  rcases hpre : decodeFields rootRtype tsRtype state root pre with ⟨r1, e1⟩
  rw [hpre] at happ
  cases e1 with
  | some e =>
    rw [happ] at hok
    simp at hok
  | none =>
    have hw1 : UpdWalks rootRtype r1 fs.fieldPath = true := by
      have := decodeFields_preserves_walk rootRtype tsRtype state pre root fs.fieldPath
        (fun g hg => hdiv g (by simp [hg])) hw
      rw [hpre] at this
      exact this
    have hone : decodeOneField rootRtype tsRtype state r1 fs =
        (rvalZeroAtPath rootRtype r1 fs.fieldPath, none) := by
      rw [decodeOneField, if_neg (by omega), hnull]
      simp only [hnil, if_true]
    have hz : getAtPath (rvalZeroAtPath rootRtype r1 fs.fieldPath) fs.fieldPath =
        some (zeroOfType (pathType rootRtype fs.fieldPath)) :=
      getAtPath_updAtPath_const rootRtype r1 fs.fieldPath _ zeroOfType
        (fun _ _ => rfl) hw1
    have hwz : UpdWalks rootRtype (rvalZeroAtPath rootRtype r1 fs.fieldPath)
        fs.fieldPath = true :=
      UpdWalks_updAtPath_self rootRtype r1 fs.fieldPath _ hw1
    have hpost := decodeFields_preserves rootRtype tsRtype state post
      (rvalZeroAtPath rootRtype r1 fs.fieldPath) fs.fieldPath
      (zeroOfType (pathType rootRtype fs.fieldPath))
      (fun g hg => hdiv g (by simp [hg])) hz hwz
    rw [happ]
    dsimp only
    rw [decodeFields.eq_def]
    simp only [hone]
    exact ⟨hpost.1, zeroOfType_absent_of_nilable _ hnil⟩

theorem decodeFields_null_zeroes_nilable_witness :
    getAtPath
        (decodeFields (.ptr (.strct [.mk "A" "a" "" false true (.ptr .prim)]))
          (.ptr (.strct [.mk "A" "a" "" false true (.ptr .prim)]))
          [none]
          (.ptr (some (.strct [.ptr (some (.str "x"))])))
          ([] ++ FieldSpec.mk (.mk "A" "a" "" false true (.ptr .prim)) [0] "a" "a" 0
              [.ptr .prim] [] :: [])).1
        [0]
      = some (zeroOfType (pathType (.ptr (.strct [.mk "A" "a" "" false true (.ptr .prim)])) [0])) ∧
    isAbsentRval (zeroOfType (Rtype.ptr .prim)) = true := by
  have h := decodeFields_null_zeroes_nilable
    (.ptr (.strct [.mk "A" "a" "" false true (.ptr .prim)]))
    (.ptr (.strct [.mk "A" "a" "" false true (.ptr .prim)]))
    [none]
    (.ptr (some (.strct [.ptr (some (.str "x"))])))
    [] []
    (FieldSpec.mk (.mk "A" "a" "" false true (.ptr .prim)) [0] "a" "a" 0 [.ptr .prim] [])
    (by simp)
    (by simp [FieldSpec.colIndex])
    (by simp [FieldSpec.colIndex, getCol])
    (by simp [FieldSpec.sfield, Sfield.type, isRtypeNilable, isNilableRtype])
    (by simp [FieldSpec.fieldPath, sfieldTypeAt, Sfield.type, zeroOfType])
    (by simp [decodeFields, decodeOneField, FieldSpec.colIndex, getCol,
      FieldSpec.sfield, Sfield.type, isRtypeNilable, isNilableRtype])
  exact h

/-- C7: in the second decode loop (run when the enclosing record is not
elided), a mapped field whose cell is NULL and whose static type is not
nilable: if its addressable target does not implement `sql.Scanner` the
decode fails with the `Null` error, citing the column alias and the field
name; if it does and `Scan(nil)` fails, that failure surfaces as the `Scan`
error. Either way the mutations made so far (including the path allocation)
are kept. `root1` is the state after the earlier fields of the loop. -/
theorem decodeFields_null_error (rootRtype tsRtype : Rtype) (state : Row)
    (root root1 : Rval) (pre post : List FieldSpec) (fs : FieldSpec)
    (hpre : decodeFields rootRtype tsRtype state root pre = (root1, none))
    (hcol : 0 ≤ fs.colIndex)
    (hnull : getCol state fs.colIndex = none)
    (hnotnil : isRtypeNilable fs.sfield.type = false) :
    ((∀ ns, fs.sfield.type ≠ .scannable ns) →
      decodeFields rootRtype tsRtype state root (pre ++ fs :: post) =
        (allocAtPath rootRtype root1 fs.fieldPath,
         some { code := .null, while_ := "decoding into struct",
                cause := "type at field " ++ fs.sfield.name ++
                  " of struct is not nilable, but corresponding column " ++
                  fs.colAlias ++ " was null" })) ∧
    (fs.sfield.type = .scannable none →
      decodeFields rootRtype tsRtype state root (pre ++ fs :: post) =
        (allocAtPath rootRtype root1 fs.fieldPath,
         some { code := .scan, while_ := "scanning into field",
                cause := "scan of null failed at field " ++ fs.sfield.name })) := by
  have happ := decodeFields_append rootRtype tsRtype state pre (fs :: post) root
  rw [hpre] at happ
  dsimp only at happ
  constructor
  · intro hns
    rw [happ, decodeFields.eq_def]
    dsimp only
    rw [decodeOneField.eq_def, if_neg (by omega), hnull]
    simp only [hnotnil, if_false]
    rcases ht : fs.sfield.type with _ | _ | ns | e | e | fl
    · rfl
    · rfl
    · exact absurd ht (hns ns)
    · rfl
    · rfl
    · rfl
  · intro hsc
    rw [happ, decodeFields.eq_def]
    dsimp only
    rw [decodeOneField.eq_def, if_neg (by omega), hnull]
    simp only [hnotnil, if_false]
    rw [hsc]
    simp

theorem decodeFields_null_error_witness :
    decodeFields (.ptr (.strct [.mk "A" "a" "" false true .prim]))
        (.ptr (.strct [.mk "A" "a" "" false true .prim]))
        [none]
        (.ptr (some (.strct [.str "old"])))
        ([] ++ FieldSpec.mk (.mk "A" "a" "" false true .prim) [0] "a" "a" 0 [.prim] [] :: []) =
      (allocAtPath (.ptr (.strct [.mk "A" "a" "" false true .prim]))
        (.ptr (some (.strct [.str "old"]))) [0],
       some { code := .null, while_ := "decoding into struct",
              cause := "type at field " ++ "A" ++
                " of struct is not nilable, but corresponding column " ++
                "a" ++ " was null" }) ∧
    decodeFields (.ptr (.strct [.mk "B" "b" "" false true (.scannable none)]))
        (.ptr (.strct [.mk "B" "b" "" false true (.scannable none)]))
        [none]
        (.ptr (some (.strct [.str "old"])))
        ([] ++ FieldSpec.mk (.mk "B" "b" "" false true (.scannable none)) [0] "b" "b" 0
            [.scannable none] [] :: []) =
      (allocAtPath (.ptr (.strct [.mk "B" "b" "" false true (.scannable none)]))
        (.ptr (some (.strct [.str "old"]))) [0],
       some { code := .scan, while_ := "scanning into field",
              cause := "scan of null failed at field " ++ "B" }) := by
  constructor
  · exact (decodeFields_null_error _ _ [none] _ (.ptr (some (.strct [.str "old"]))) [] []
      (FieldSpec.mk (.mk "A" "a" "" false true .prim) [0] "a" "a" 0 [.prim] [])
      rfl
      (by simp [FieldSpec.colIndex])
      (by simp [FieldSpec.colIndex, getCol])
      (by simp [FieldSpec.sfield, Sfield.type, isRtypeNilable, isNilableRtype])).1
      (by intro ns h; simp [FieldSpec.sfield, Sfield.type] at h)
  · exact (decodeFields_null_error _ _ [none] _ (.ptr (some (.strct [.str "old"]))) [] []
      (FieldSpec.mk (.mk "B" "b" "" false true (.scannable none)) [0] "b" "b" 0
        [.scannable none] [])
      rfl
      (by simp [FieldSpec.colIndex])
      (by simp [FieldSpec.colIndex, getCol])
      (by simp [FieldSpec.sfield, Sfield.type, isRtypeNilable, isNilableRtype])).2
      (by simp [FieldSpec.sfield, Sfield.type])

/-- C5: For every non-slice (single-scalar or single-record) destination: if
advancing the cursor yields no row and the cursor reports no error, `scanOne`
returns the `NoRows` error; if after decoding one row the cursor yields
another row, it returns the `MultipleRows` error; if the cursor yields
exactly one row, it decodes it into the destination and returns success. -/
theorem scanOne_row_protocol {δ : Type} (rows : List Row)
    (scanFn : Row → δ → δ × Option Err) (dest : δ) :
    (rows = [] →
      scanOne rows none scanFn dest =
        (dest, some { code := .noRows, while_ := "preparing row",
                      cause := "sql: no rows in result set" })) ∧
    (∀ r rest d1, rows = r :: rest → rest ≠ [] → scanFn r dest = (d1, none) →
      scanOne rows none scanFn dest =
        (d1, some { code := .multipleRows, while_ := "verifying row count",
                    cause := "expected one row, got multiple" })) ∧
    (∀ r d1, rows = [r] → scanFn r dest = (d1, none) →
      scanOne rows none scanFn dest = (d1, none)) := by
  refine ⟨?_, ?_, ?_⟩
  · intro h
    subst h
    rfl
  · intro r rest d1 hrows hne hscan
    subst hrows
    cases rest with
    | nil => exact absurd rfl hne
    | cons r2 rest2 => simp [scanOne, hscan]
  · intro r d1 hrows hscan
    subst hrows
    simp [scanOne, hscan]

theorem scanOne_row_protocol_witness :
    scanOne (δ := Nat) [] none (fun _ d => (d + 1, none)) 0 =
      (0, some { code := .noRows, while_ := "preparing row",
                 cause := "sql: no rows in result set" }) ∧
    scanOne (δ := Nat) [[], []] none (fun _ d => (d + 1, none)) 0 =
      (1, some { code := .multipleRows, while_ := "verifying row count",
                 cause := "expected one row, got multiple" }) ∧
    scanOne (δ := Nat) [[]] none (fun _ d => (d + 1, none)) 0 = (1, none) :=
  ⟨(scanOne_row_protocol [] (fun _ d => (d + 1, none)) 0).1 rfl,
   (scanOne_row_protocol [[], []] (fun _ d => (d + 1, none)) 0).2.1
     [] [[]] 1 rfl (by simp) rfl,
   (scanOne_row_protocol [[]] (fun _ d => (d + 1, none)) 0).2.2 [] 1 rfl rfl⟩

/-- C10: when the cursor yields two or more rows and the first row decodes
successfully, `scanOne` returns the `MultipleRows` error with the destination
already overwritten by the first row's decoded value (`d1`): the error is not
atomic. -/
theorem scanOne_multipleRows_not_atomic {δ : Type} (r1 r2 : Row)
    (rest : List Row) (cursorErr : Option String)
    (scanFn : Row → δ → δ × Option Err) (dest d1 : δ)
    (hscan : scanFn r1 dest = (d1, none)) :
    scanOne (r1 :: r2 :: rest) cursorErr scanFn dest =
      (d1, some { code := .multipleRows, while_ := "verifying row count",
                  cause := "expected one row, got multiple" }) := by
  simp [scanOne, hscan]

theorem scanOne_multipleRows_not_atomic_witness :
    scanOne (δ := Nat) [[], []] none (fun _ d => (d + 1, none)) 0 =
      (1, some { code := .multipleRows, while_ := "verifying row count",
                 cause := "expected one row, got multiple" }) ∧ (1 : Nat) ≠ 0 :=
  ⟨scanOne_multipleRows_not_atomic [] [] [] none (fun _ d => (d + 1, none)) 0 1 rfl,
   by decide⟩

theorem scanManyLoop_ok (scanFn : Row → Rval × Option Err) (rows : List Row)
    (s : GoSlice) (hok : ∀ r ∈ rows, (scanFn r).2 = none) :
    (scanManyLoop scanFn rows s).2 = none ∧
    (scanManyLoop scanFn rows s).1.elems.length = s.elems.length + rows.length ∧
    s.cap ≤ (scanManyLoop scanFn rows s).1.cap ∧
    ((scanManyLoop scanFn rows s).1.elems.length ≤ (scanManyLoop scanFn rows s).1.cap ∨
      (scanManyLoop scanFn rows s).1 = s) := by
  induction rows generalizing s with
  | nil => simp [scanManyLoop]
  | cons r rest ih =>
    have hr : (scanFn r).2 = none := hok r (by simp)
    have hrest : ∀ r' ∈ rest, (scanFn r').2 = none := fun r' h => hok r' (by simp [h])
    rcases hsf : scanFn r with ⟨v, e⟩
    rw [hsf] at hr
    simp at hr
    subst hr
    have happ1 : (sliceAppend s v).elems.length = s.elems.length + 1 := by
      simp [sliceAppend]
    have happ2 : s.cap ≤ (sliceAppend s v).cap := by
      simp only [sliceAppend]
      split <;> simp_all <;> omega
    have happ3 : (sliceAppend s v).elems.length ≤ (sliceAppend s v).cap := by
      simp only [sliceAppend]
      split <;> simp_all
    have := ih (sliceAppend s v) hrest
    rcases this with ⟨h1, h2, h3, h4⟩
    refine ⟨?_, ?_, ?_, ?_⟩
    · simp [scanManyLoop, hsf, h1]
    · simp [scanManyLoop, hsf]
      omega
    · simp [scanManyLoop, hsf]
      omega
    · simp [scanManyLoop, hsf]
      left
      rcases h4 with h4 | h4
      · exact h4
      · rw [h4]
        exact happ3

/-- C9: for every slice destination with initial length N (and a valid
backing array, N ≤ cap), `scanMany` truncates the slice to length zero
exactly once before appending, preserving its capacity and nil-ness; after M
successfully decoded rows the slice has length M and capacity at least
max(N, M); in particular an empty result yields a length-0 slice that keeps
the original capacity and nil/non-nil status. -/
theorem scanMany_slice_lifecycle (rows : List Row)
    (scanFn : Row → Rval × Option Err) (dest : GoSlice)
    (hcap : dest.elems.length ≤ dest.cap)
    (hok : ∀ r ∈ rows, (scanFn r).2 = none) :
    (scanMany rows scanFn dest).2 = none ∧
    (scanMany rows scanFn dest).1.elems.length = rows.length ∧
    max dest.elems.length rows.length ≤ (scanMany rows scanFn dest).1.cap ∧
    (rows = [] → (scanMany rows scanFn dest).1 =
      { isNil := dest.isNil, cap := dest.cap, elems := [] }) := by
  have h := scanManyLoop_ok scanFn rows (truncateSliceRval dest) hok
  rcases h with ⟨h1, h2, h3, h4⟩
  have htr1 : (truncateSliceRval dest).elems.length = 0 := rfl
  have htr2 : (truncateSliceRval dest).cap = dest.cap := rfl
  simp only [scanMany] at *
  rw [htr1] at h2
  rw [htr2] at h3
  refine ⟨h1, by omega, ?_, ?_⟩
  · rcases h4 with h4 | h4
    · omega
    · have hlen : (scanManyLoop scanFn rows (truncateSliceRval dest)).1.elems.length = 0 := by
        rw [h4, htr1]
      have hc : (scanManyLoop scanFn rows (truncateSliceRval dest)).1.cap = dest.cap := by
        rw [h4, htr2]
      omega
  · intro hr
    subst hr
    rfl

theorem scanMany_slice_lifecycle_witness :
    (scanMany [[], []] (fun _ => (.str "v", none))
        { isNil := false, cap := 1, elems := [.str "a"] }).2 = none ∧
    (scanMany [[], []] (fun _ => (.str "v", none))
        { isNil := false, cap := 1, elems := [.str "a"] }).1.elems.length = 2 ∧
    max 1 2 ≤ (scanMany [[], []] (fun _ => (.str "v", none))
        { isNil := false, cap := 1, elems := [.str "a"] }).1.cap ∧
    (scanMany ([] : List Row) (fun _ => (.str "v", none))
        { isNil := true, cap := 3, elems := [] }).1 =
      { isNil := true, cap := 3, elems := [] } := by
  have h1 := scanMany_slice_lifecycle [[], []] (fun _ => (.str "v", none))
    { isNil := false, cap := 1, elems := [.str "a"] } (by simp) (by simp)
  have h2 := scanMany_slice_lifecycle ([] : List Row) (fun _ => (.str "v", none))
    { isNil := true, cap := 3, elems := [] } (by simp) (by simp)
  exact ⟨h1.1, h1.2.1, h1.2.2.1, h2.2.2.2 rfl⟩

/-- C8: a nil destination (nil interface or typed nil pointer) makes `Query`
take the execute-returning-no-rows path — no cursor is opened, and only the
driver's `ExecContext` error (wrapped with "executing query") is returned;
any other destination that is not a non-nil pointer fails with
`InvalidDest`. -/
theorem Query_dest_classification (conn : Conn) (dest : GoDest)
    (manyRes oneRes : Option Err) :
    (isNilDest dest = true →
      Query conn dest manyRes oneRes =
        (match conn.execErr with
         | some e => some { code := .unknown, while_ := "executing query", cause := e }
         | none => none)) ∧
    (isNilDest dest = false → (∀ b, dest ≠ .ptrVal b) →
      Query conn dest manyRes oneRes =
        some { code := .invalidDest, while_ := "",
               cause := "destination must be non-nil pointer" }) := by
  constructor
  · intro h
    simp [Query, h]
  · intro h hptr
    cases dest with
    | nilInterface => simp [isNilDest] at h
    | nilPointer => simp [isNilDest] at h
    | ptrVal b => exact absurd rfl (hptr b)
    | nonPtrValue => simp [Query, isNilDest, validateDestPtr]

theorem Query_dest_classification_witness :
    Query { execErr := some "boom", queryErr := none } .nilPointer none none =
      some { code := .unknown, while_ := "executing query", cause := "boom" } ∧
    Query { execErr := none, queryErr := none } .nonPtrValue none none =
      some { code := .invalidDest, while_ := "",
             cause := "destination must be non-nil pointer" } :=
  ⟨(Query_dest_classification { execErr := some "boom", queryErr := none }
      .nilPointer none none).1 rfl,
   (Query_dest_classification { execErr := none, queryErr := none }
      .nonPtrValue none none).2 rfl (fun b h => by cases h)⟩

end Gos

namespace Gos

theorem traverseMakeSpec_strct (typ : Rtype) (colNames : List String) (m : AliasMap)
    (parentChain : List Rtype) (colPath : List String) (fieldPath : List Nat)
    (fields : List Sfield) (hd : derefRtype typ = .strct fields) :
    traverseMakeSpec typ colNames m parentChain colPath fieldPath =
      makeSpecFields fields 0 colNames m parentChain colPath fieldPath := by
  rw [traverseMakeSpec.eq_def]
  split
  · rename_i fields' hd'
    rw [hd] at hd'
    cases hd'
    rfl
  · rename_i h
    exact absurd hd (h fields)

theorem traverseMakeSpec_other (typ : Rtype) (colNames : List String) (m : AliasMap)
    (parentChain : List Rtype) (colPath : List String) (fieldPath : List Nat)
    (hd : ∀ fields, derefRtype typ ≠ .strct fields) :
    traverseMakeSpec typ colNames m parentChain colPath fieldPath = .ok ([], m) := by
  rw [traverseMakeSpec.eq_def]
  split
  · rename_i fields' hd'
    exact absurd hd' (hd fields')
  · rfl

theorem aliasListOfType_strct (typ : Rtype) (colPath : List String)
    (fields : List Sfield) (hd : derefRtype typ = .strct fields) :
    aliasListOfType typ colPath = aliasListFields fields colPath := by
  rw [aliasListOfType.eq_def]
  split
  · rename_i fields' hd'
    rw [hd] at hd'
    cases hd'
    rfl
  · rename_i h
    exact absurd hd (h fields)

theorem aliasListOfType_other (typ : Rtype) (colPath : List String)
    (hd : ∀ fields, derefRtype typ ≠ .strct fields) :
    aliasListOfType typ colPath = [] := by
  rw [aliasListOfType.eq_def]
  split
  · rename_i fields' hd'
    exact absurd hd' (hd fields')
  · rfl

theorem MSInv_trivial (m : AliasMap) (specs : List FieldSpec) :
    MSInv (.ok (specs, m)) m [] := by
  refine ⟨by simp, ?_, ?_, ?_⟩
  · intro s mm h
    cases h
    simp
  · intro s mm h hnd
    cases h
    exact hnd
  · intro _
    exact ⟨specs, m, rfl⟩

theorem nodup_append_sub (xs ys zs : List String)
    (h : (xs ++ (ys ++ zs)).Nodup) : (xs ++ ys).Nodup :=
  (List.sublist_append_left (xs ++ ys) zs).nodup (by rw [List.append_assoc]; exact h)

theorem nodup_append_sub_mid (xs : List String) (a : String) (ys zs : List String)
    (h : (xs ++ a :: (ys ++ zs)).Nodup) : ((xs ++ [a]) ++ ys).Nodup :=
  (List.sublist_append_left ((xs ++ [a]) ++ ys) zs).nodup
    (by simpa [List.append_assoc] using h)

theorem makeSpec_inv :
    ∀ (fields : List Sfield) (i : Nat) (colNames : List String) (m : AliasMap)
      (parentChain : List Rtype) (colPath : List String) (fieldPath : List Nat),
      MSInv (makeSpecFields fields i colNames m parentChain colPath fieldPath) m
        (aliasListFields fields colPath) := by
  refine makeSpecFields.induct
    (fun typ colNames m parentChain colPath fieldPath =>
      MSInv (traverseMakeSpec typ colNames m parentChain colPath fieldPath) m
        (aliasListOfType typ colPath))
    (fun fields i colNames m parentChain colPath fieldPath =>
      MSInv (makeSpecFields fields i colNames m parentChain colPath fieldPath) m
        (aliasListFields fields colPath))
    ?c1 ?c2 ?c3 ?c4 ?c5 ?c6 ?c7 ?c8 ?c9 ?c10 ?c11 ?c12 ?c13 ?c14 ?c15 ?c16
  case c1 =>
    intro typ colNames m parentChain colPath fieldPath fields hd ih
    rw [traverseMakeSpec_strct _ _ _ _ _ _ _ hd, aliasListOfType_strct _ _ _ hd]
    exact ih
  case c2 =>
    intro typ colNames m parentChain colPath fieldPath h
    rw [traverseMakeSpec_other _ _ _ _ _ _ (fun fields hh => h fields hh),
      aliasListOfType_other _ _ (fun fields hh => h fields hh)]
    exact MSInv_trivial m []
  case c3 =>
    intro i colNames m parentChain colPath fieldPath
    rw [makeSpecFields, aliasListFields]
    exact MSInv_trivial m []
  case c4 =>
    intro i colNames m parentChain colPath fieldPath f rest hexp e hsub ih
    rw [makeSpecFields.eq_def]
    dsimp only
    rw [if_pos hexp, aliasListFields, if_pos hexp, hsub]
    exact ⟨fun e' he => (by cases he; exact ih.1 _ hsub),
      fun s mm h => (by cases h), fun s mm h => (by cases h),
      fun hnd => by
        rcases ih.2.2.2 hnd with ⟨s, mm, hok⟩
        rw [hsub] at hok
        cases hok⟩
  case c5 =>
    intro i colNames m parentChain colPath fieldPath f rest hexp specs m' hsub ih
    rw [makeSpecFields.eq_def]
    dsimp only
    rw [if_pos hexp, aliasListFields, if_pos hexp, hsub]
    exact ⟨fun e' he => (by cases he),
      fun s mm h => (by cases h; exact ih.2.1 _ _ hsub),
      fun s mm h hnd => (by cases h; exact ih.2.2.1 _ _ hsub hnd),
      fun hnd => ⟨_, _, rfl⟩⟩
  case c6 =>
    intro i colNames m parentChain colPath fieldPath f rest fpI ch hexp hanon e hsub ih1
    rw [show ch = f.type :: parentChain from rfl, show fpI = fieldPath ++ [i] from rfl]
      at hsub ih1
    rw [makeSpecFields.eq_def]
    dsimp only
    rw [if_neg hexp, if_pos hanon, aliasListFields, if_neg hexp, if_pos hanon, hsub]
    exact ⟨fun e' he => (by cases he; exact ih1.1 _ hsub),
      fun s mm h => (by cases h), fun s mm h => (by cases h),
      fun hnd => by
        rcases ih1.2.2.2 (nodup_append_sub _ _ _ hnd) with ⟨s, mm, hok⟩
        rw [hsub] at hok
        cases hok⟩
  case c7 =>
    intro i colNames m parentChain colPath fieldPath f rest fpI ch hexp hanon specs m'
      hsub1 e hsub2 ih1 ih2
    rw [show ch = f.type :: parentChain from rfl, show fpI = fieldPath ++ [i] from rfl]
      at hsub1 ih1
    rw [makeSpecFields.eq_def]
    dsimp only
    rw [if_neg hexp, if_pos hanon, aliasListFields, if_neg hexp, if_pos hanon, hsub1]
    dsimp only
    rw [hsub2]
    have hK1 := ih1.2.1 _ _ hsub1
    exact ⟨fun e' he => (by cases he; exact ih2.1 _ hsub2),
      fun s mm h => (by cases h), fun s mm h => (by cases h),
      fun hnd => by
        rcases ih2.2.2.2 (by rw [hK1, List.append_assoc]; exact hnd) with ⟨s, mm, hok⟩
        rw [hsub2] at hok
        cases hok⟩
  case c8 =>
    intro i colNames m parentChain colPath fieldPath f rest fpI ch hexp hanon specs m'
      hsub1 specs2 m2 hsub2 ih1 ih2
    rw [show ch = f.type :: parentChain from rfl, show fpI = fieldPath ++ [i] from rfl]
      at hsub1 ih1
    rw [makeSpecFields.eq_def]
    dsimp only
    rw [if_neg hexp, if_pos hanon, aliasListFields, if_neg hexp, if_pos hanon, hsub1]
    dsimp only
    rw [hsub2]
    have hK1 := ih1.2.1 _ _ hsub1
    have hK2 := ih2.2.1 _ _ hsub2
    exact ⟨fun e' he => (by cases he),
      fun s mm h => (by cases h; rw [hK2, hK1, List.append_assoc]),
      fun s mm h hnd => by
        cases h
        exact ih2.2.2.1 _ _ hsub2 (ih1.2.2.1 _ _ hsub1 hnd),
      fun hnd => ⟨_, _, rfl⟩⟩
  case c9 =>
    intro i colNames m parentChain colPath fieldPath f rest hexp hanon hcol e hsub ih
    rw [makeSpecFields.eq_def]
    dsimp only
    rw [if_neg hexp, if_neg hanon, if_pos hcol, aliasListFields, if_neg hexp, if_neg hanon,
      if_pos hcol, hsub]
    exact ⟨fun e' he => (by cases he; exact ih.1 _ hsub),
      fun s mm h => (by cases h), fun s mm h => (by cases h),
      fun hnd => by
        rcases ih.2.2.2 hnd with ⟨s, mm, hok⟩
        rw [hsub] at hok
        cases hok⟩
  case c10 =>
    intro i colNames m parentChain colPath fieldPath f rest hexp hanon hcol specs m' hsub ih
    rw [makeSpecFields.eq_def]
    dsimp only
    rw [if_neg hexp, if_neg hanon, if_pos hcol, aliasListFields, if_neg hexp, if_neg hanon,
      if_pos hcol, hsub]
    exact ⟨fun e' he => (by cases he),
      fun s mm h => (by cases h; exact ih.2.1 _ _ hsub),
      fun s mm h hnd => (by cases h; exact ih.2.2.1 _ _ hsub hnd),
      fun hnd => ⟨_, _, rfl⟩⟩
  case c11 =>
    intro i colNames m parentChain colPath fieldPath f rest hexp hanon hcol colName colPathI
      colAlias hlook
    rw [show colAlias = String.intercalate "." (colPathI) from rfl,
      show colPathI = colPath ++ [colName] from rfl,
      show colName = sfieldColumnName f from rfl] at hlook
    rw [makeSpecFields.eq_def]
    dsimp only
    rw [if_neg hexp, if_neg hanon, if_neg hcol, if_pos hlook, aliasListFields, if_neg hexp,
      if_neg hanon, if_neg hcol]
    have hmem : String.intercalate "." (colPath ++ [sfieldColumnName f]) ∈ aliasKeys m :=
      (aliasLookup_isSome_iff _ _).mp hlook
    have hS : ∀ tail : List String,
        ¬(aliasKeys m ++ String.intercalate "." (colPath ++ [sfieldColumnName f]) :: tail).Nodup := by
      intro tail hnd
      rcases List.nodup_append.mp hnd with ⟨h1', h2', hdisj⟩
      exact hdisj hmem (by simp)
    split
    · exact ⟨fun e' he => (by cases he; rfl), fun s mm h => (by cases h),
        fun s mm h => (by cases h), fun hnd => absurd hnd (hS _)⟩
    · exact ⟨fun e' he => (by cases he; rfl), fun s mm h => (by cases h),
        fun s mm h => (by cases h), fun hnd => absurd hnd (hS _)⟩
  case c12 =>
    intro i colNames m parentChain colPath fieldPath f rest fpI ch hexp hanon hcol colName
      innerT innerPath colPathI colAlias hlook m1 hsn e hsub ih1
    rw [show m1 = m ++ [(colAlias, f.type)] from rfl] at hsub ih1
    rw [show innerT = (refWalk (derefRtype f.type) fpI).1 from rfl] at hsn hsub ih1
    rw [show innerPath = (refWalk (derefRtype f.type) fpI).2 from rfl] at hsub ih1
    rw [show colAlias = String.intercalate "." colPathI from rfl] at hlook hsub ih1
    rw [show colPathI = colPath ++ [colName] from rfl] at hlook hsub ih1
    rw [show colName = sfieldColumnName f from rfl] at hlook hsub ih1
    rw [show fpI = fieldPath ++ [i] from rfl] at hsn hsub ih1
    rw [makeSpecFields.eq_def]
    dsimp only
    rw [if_neg hexp, if_neg hanon, if_neg hcol, if_neg hlook, if_pos hsn, hsub,
      aliasListFields, if_neg hexp, if_neg hanon, if_neg hcol]
    rw [refWalk_fst_eq_refWalkT] at hsn
    rw [if_pos hsn]
    rw [refWalk_fst_eq_refWalkT] at ih1 hsub
    have hkeys1 : aliasKeys (m ++
        [(String.intercalate "." (colPath ++ [sfieldColumnName f]), f.type)]) =
        aliasKeys m ++ [String.intercalate "." (colPath ++ [sfieldColumnName f])] := by
      simp [aliasKeys]
    exact ⟨fun e' he => (by cases he; exact ih1.1 _ hsub),
      fun s mm h => (by cases h), fun s mm h => (by cases h),
      fun hnd => by
        rcases ih1.2.2.2 (by
          rw [hkeys1]
          exact nodup_append_sub_mid _ _ _ _ hnd) with ⟨s, mm, hok⟩
        rw [hsub] at hok
        cases hok⟩
  case c13 =>
    intro i colNames m parentChain colPath fieldPath f rest fpI ch hexp hanon hcol colName
      innerT innerPath colPathI colAlias hlook m1 hsn specs m' hsub1 e hsub2 ih1 ih2
    rw [show m1 = m ++ [(colAlias, f.type)] from rfl] at hsub1 ih1
    rw [show innerT = (refWalk (derefRtype f.type) fpI).1 from rfl] at hsn hsub1 ih1
    rw [show innerPath = (refWalk (derefRtype f.type) fpI).2 from rfl] at hsub1 ih1
    rw [show colAlias = String.intercalate "." colPathI from rfl] at hlook hsub1 ih1
    rw [show colPathI = colPath ++ [colName] from rfl] at hlook hsub1 ih1
    rw [show colName = sfieldColumnName f from rfl] at hlook hsub1 ih1
    rw [show fpI = fieldPath ++ [i] from rfl] at hsn hsub1 ih1
    rw [makeSpecFields.eq_def]
    dsimp only
    rw [if_neg hexp, if_neg hanon, if_neg hcol, if_neg hlook, if_pos hsn, hsub1]
    dsimp only
    rw [hsub2, aliasListFields, if_neg hexp, if_neg hanon, if_neg hcol]
    rw [refWalk_fst_eq_refWalkT] at hsn
    rw [if_pos hsn]
    rw [refWalk_fst_eq_refWalkT] at ih1 hsub1
    have hkeys1 : aliasKeys (m ++
        [(String.intercalate "." (colPath ++ [sfieldColumnName f]), f.type)]) =
        aliasKeys m ++ [String.intercalate "." (colPath ++ [sfieldColumnName f])] := by
      simp [aliasKeys]
    have hK1 := ih1.2.1 _ _ hsub1
    exact ⟨fun e' he => (by cases he; exact ih2.1 _ hsub2),
      fun s mm h => (by cases h), fun s mm h => (by cases h),
      fun hnd => by
        rcases ih2.2.2.2 (by
          rw [hK1, hkeys1]
          simp only [List.append_assoc, List.singleton_append, List.cons_append]
          simpa [List.append_assoc] using hnd) with ⟨s, mm, hok⟩
        rw [hsub2] at hok
        cases hok⟩
  case c14 =>
    intro i colNames m parentChain colPath fieldPath f rest fpI ch hexp hanon hcol colName
      innerT innerPath colPathI colAlias hlook m1 hsn specs m' hsub1 specs2 m2 hsub2 ih1 ih2
    rw [show m1 = m ++ [(colAlias, f.type)] from rfl] at hsub1 ih1
    rw [show innerT = (refWalk (derefRtype f.type) fpI).1 from rfl] at hsn hsub1 ih1
    rw [show innerPath = (refWalk (derefRtype f.type) fpI).2 from rfl] at hsub1 ih1
    rw [show colAlias = String.intercalate "." colPathI from rfl] at hlook hsub1 ih1
    rw [show colPathI = colPath ++ [colName] from rfl] at hlook hsub1 ih1
    rw [show colName = sfieldColumnName f from rfl] at hlook hsub1 ih1
    rw [show fpI = fieldPath ++ [i] from rfl] at hsn hsub1 ih1
    rw [makeSpecFields.eq_def]
    dsimp only
    rw [if_neg hexp, if_neg hanon, if_neg hcol, if_neg hlook, if_pos hsn, hsub1]
    dsimp only
    rw [hsub2, aliasListFields, if_neg hexp, if_neg hanon, if_neg hcol]
    rw [refWalk_fst_eq_refWalkT] at hsn
    rw [if_pos hsn]
    rw [refWalk_fst_eq_refWalkT] at ih1 hsub1
    have hkeys1 : aliasKeys (m ++
        [(String.intercalate "." (colPath ++ [sfieldColumnName f]), f.type)]) =
        aliasKeys m ++ [String.intercalate "." (colPath ++ [sfieldColumnName f])] := by
      simp [aliasKeys]
    have hfresh : String.intercalate "." (colPath ++ [sfieldColumnName f]) ∉ aliasKeys m := by
      intro hm
      rw [← aliasLookup_isSome_iff] at hm
      exact hlook hm
    have hK1 := ih1.2.1 _ _ hsub1
    have hK2 := ih2.2.1 _ _ hsub2
    exact ⟨fun e' he => (by cases he),
      fun s mm h => by
        cases h
        rw [hK2, hK1, hkeys1]
        simp [List.append_assoc],
      fun s mm h hnd => by
        cases h
        refine ih2.2.2.1 _ _ hsub2 (ih1.2.2.1 _ _ hsub1 ?_)
        rw [hkeys1]
        simp [List.nodup_append, hnd, hfresh],
      fun hnd => ⟨_, _, rfl⟩⟩
  case c15 =>
    intro i colNames m parentChain colPath fieldPath f rest fpI hexp hanon hcol colName
      innerT colPathI colAlias hlook m1 hsn e hsub ih
    rw [show m1 = m ++ [(colAlias, f.type)] from rfl] at hsub ih
    rw [show innerT = (refWalk (derefRtype f.type) fpI).1 from rfl] at hsn
    rw [show colAlias = String.intercalate "." colPathI from rfl] at hlook hsub ih
    rw [show colPathI = colPath ++ [colName] from rfl] at hlook hsub ih
    rw [show colName = sfieldColumnName f from rfl] at hlook hsub ih
    rw [show fpI = fieldPath ++ [i] from rfl] at hsn
    rw [makeSpecFields.eq_def]
    dsimp only
    rw [if_neg hexp, if_neg hanon, if_neg hcol, if_neg hlook, if_neg hsn, hsub,
      aliasListFields, if_neg hexp, if_neg hanon, if_neg hcol]
    rw [refWalk_fst_eq_refWalkT] at hsn
    rw [if_neg hsn]
    have hkeys1 : aliasKeys (m ++
        [(String.intercalate "." (colPath ++ [sfieldColumnName f]), f.type)]) =
        aliasKeys m ++ [String.intercalate "." (colPath ++ [sfieldColumnName f])] := by
      simp [aliasKeys]
    exact ⟨fun e' he => (by cases he; exact ih.1 _ hsub),
      fun s mm h => (by cases h), fun s mm h => (by cases h),
      fun hnd => by
        rcases ih.2.2.2 (by
          rw [hkeys1]
          simpa [List.append_assoc] using hnd) with ⟨s, mm, hok⟩
        rw [hsub] at hok
        cases hok⟩
  case c16 =>
    intro i colNames m parentChain colPath fieldPath f rest fpI hexp hanon hcol colName
      innerT colPathI colAlias hlook m1 hsn specs m' hsub ih
    rw [show m1 = m ++ [(colAlias, f.type)] from rfl] at hsub ih
    rw [show innerT = (refWalk (derefRtype f.type) fpI).1 from rfl] at hsn
    rw [show colAlias = String.intercalate "." colPathI from rfl] at hlook hsub ih
    rw [show colPathI = colPath ++ [colName] from rfl] at hlook hsub ih
    rw [show colName = sfieldColumnName f from rfl] at hlook hsub ih
    rw [show fpI = fieldPath ++ [i] from rfl] at hsn
    rw [makeSpecFields.eq_def]
    dsimp only
    rw [if_neg hexp, if_neg hanon, if_neg hcol, if_neg hlook, if_neg hsn, hsub,
      aliasListFields, if_neg hexp, if_neg hanon, if_neg hcol]
    rw [refWalk_fst_eq_refWalkT] at hsn
    rw [if_neg hsn]
    have hkeys1 : aliasKeys (m ++
        [(String.intercalate "." (colPath ++ [sfieldColumnName f]), f.type)]) =
        aliasKeys m ++ [String.intercalate "." (colPath ++ [sfieldColumnName f])] := by
      simp [aliasKeys]
    have hfresh : String.intercalate "." (colPath ++ [sfieldColumnName f]) ∉ aliasKeys m := by
      intro hm
      rw [← aliasLookup_isSome_iff] at hm
      exact hlook hm
    exact ⟨fun e' he => (by cases he),
      fun s mm h => by
        cases h
        rw [ih.2.1 _ _ hsub, hkeys1]
        simp [List.append_assoc],
      fun s mm h hnd => by
        cases h
        refine ih.2.2.1 _ _ hsub ?_
        rw [hkeys1]
        simp [List.nodup_append, hnd, hfresh],
      fun hnd => ⟨_, _, rfl⟩⟩

/-- The plan-building invariant holds for `traverseMakeSpec` from any
starting alias map. -/
theorem traverse_inv (typ : Rtype) (colNames : List String) (m : AliasMap)
    (parentChain : List Rtype) (colPath : List String) (fieldPath : List Nat) :
    MSInv (traverseMakeSpec typ colNames m parentChain colPath fieldPath) m
      (aliasListOfType typ colPath) := by
  by_cases h : ∀ fields, derefRtype typ ≠ Rtype.strct fields
  · rw [traverseMakeSpec_other _ _ _ _ _ _ h, aliasListOfType_other _ _ h]
    exact MSInv_trivial m []
  · push_neg at h
    obtain ⟨fields, hd⟩ := h
    rw [traverseMakeSpec_strct _ _ _ _ _ _ _ hd, aliasListOfType_strct _ _ _ hd]
    exact makeSpec_inv fields 0 colNames m parentChain colPath fieldPath

/-- When the column check passes, every driver column is a recorded key. -/
theorem checkCols_none_mem (C : List String) (m : AliasMap)
    (h : checkColsHaveDest C m = none) : ∀ c ∈ C, c ∈ aliasKeys m := by
  induction C with
  | nil => intro c hc; cases hc
  | cons c0 rest ih =>
    intro c hc
    rw [checkColsHaveDest] at h
    by_cases hl : (aliasLookup m c0).isSome = true
    · rw [if_pos hl] at h
      rcases List.mem_cons.mp hc with rfl | hc'
      · exact (aliasLookup_isSome_iff m c).mp hl
      · exact ih h c hc'
    · rw [if_neg hl] at h
      cases h

/-- A driver column with no recorded key makes the column check fail. -/
theorem checkCols_missing (C : List String) (m : AliasMap) (c : String)
    (hc : c ∈ C) (hm : c ∉ aliasKeys m) : ∃ e, checkColsHaveDest C m = some e := by
  induction C with
  | nil => cases hc
  | cons c0 rest ih =>
    rw [checkColsHaveDest]
    by_cases hl : (aliasLookup m c0).isSome = true
    · rw [if_pos hl]
      rcases List.mem_cons.mp hc with rfl | hc'
      · exact absurd ((aliasLookup_isSome_iff m c).mp hl) hm
      · exact ih hc'
    · rw [if_neg hl]
      exact ⟨_, rfl⟩

/-- The column check only ever reports `NoColDest`. -/
theorem checkCols_some_code (C : List String) (m : AliasMap) (e : Err)
    (h : checkColsHaveDest C m = some e) : e.code = .noColDest := by
  induction C with
  | nil => rw [checkColsHaveDest] at h; cases h
  | cons c0 rest ih =>
    rw [checkColsHaveDest] at h
    by_cases hl : (aliasLookup m c0).isSome = true
    · rw [if_pos hl] at h
      exact ih h
    · rw [if_neg hl] at h
      cases h
      rfl

/-- C3: for a struct-pointer destination type `R` and driver column list `C`:
if `prepareDestSpec` succeeds then every name of `C` is a recorded alias of
the plan and the recorded aliases are pairwise distinct; if two leaves of `R`
resolve to the same alias then plan building fails with `RedundantCol`; and
when the aliases of `R` are distinct but some name of `C` matches none of
them, plan building fails with `NoColDest`. -/
theorem prepareDestSpec_alias_invariants (R : Rtype) (C : List String)
    (hptr : isPtrKind R = true) (hstr : isStructKind R = true) :
    (∀ spec, prepareDestSpec R C = .ok spec →
      (∀ c ∈ C, c ∈ aliasKeys spec.colRtypes) ∧ (aliasKeys spec.colRtypes).Nodup) ∧
    (¬(aliasListOfType R []).Nodup →
      ∃ e, prepareDestSpec R C = .error e ∧ e.code = .redundantCol) ∧
    ((aliasListOfType R []).Nodup → (∃ c ∈ C, c ∉ aliasListOfType R []) →
      ∃ e, prepareDestSpec R C = .error e ∧ e.code = .noColDest) := by
  have hinv := traverse_inv R C [] [] [] []
  have hstep : prepareDestSpec R C =
      match traverseMakeSpec R C [] [] [] [] with
      | .error e => .error e
      | .ok (fieldSpecs, m) =>
        match checkColsHaveDest C m with
        | some e => .error e
        | none =>
          .ok { colNames := C, colRtypes := m, rootRtype := R,
                fieldSpecs := fieldSpecs } := by
    rw [prepareDestSpec, hptr, hstr]
    simp
  refine ⟨?_, ?_, ?_⟩
  · intro spec hok
    rw [hstep] at hok
    rcases htr : traverseMakeSpec R C [] [] [] [] with e | ⟨fs, m⟩ <;> rw [htr] at hok
    · cases hok
    · dsimp only at hok
      rcases hch : checkColsHaveDest C m with _ | e2 <;> rw [hch] at hok <;> dsimp only at hok
      · cases hok
        constructor
        · intro c hc
          exact checkCols_none_mem C m hch c hc
        · have hN := hinv.2.2.1 _ _ htr (by simp [aliasKeys])
          exact hN
      · cases hok
  · intro hnd
    rcases htr : traverseMakeSpec R C [] [] [] [] with e | ⟨fs, m⟩
    · refine ⟨e, ?_, hinv.1 e htr⟩
      rw [hstep, htr]

    · exfalso
      have hK := hinv.2.1 _ _ htr
      have hN := hinv.2.2.1 _ _ htr (by simp [aliasKeys])
      rw [hK] at hN
      simp only [aliasKeys, List.map_nil, List.nil_append] at hN
      exact hnd hN
  · rintro hnd ⟨c, hcC, hcal⟩
    rcases hinv.2.2.2 (by simpa [aliasKeys] using hnd) with ⟨fs, m, htr⟩
    have hK := hinv.2.1 _ _ htr
    have hmem : c ∉ aliasKeys m := by
      rw [hK]
      simpa [aliasKeys] using hcal
    rcases checkCols_missing C m c hcC hmem with ⟨e, hch⟩
    refine ⟨e, ?_, checkCols_some_code C m e hch⟩
    rw [hstep, htr]
    dsimp only
    rw [hch]

/-- Witness for C3: a one-field struct pointer destination with the single
column list matching its alias. -/
theorem prepareDestSpec_alias_invariants_witness :
    (∀ spec,
        prepareDestSpec (.ptr (.strct [Sfield.mk "Val" "val" "" false true .prim])) ["val"] =
          .ok spec →
      (∀ c ∈ ["val"], c ∈ aliasKeys spec.colRtypes) ∧ (aliasKeys spec.colRtypes).Nodup) ∧
    (¬(aliasListOfType (.ptr (.strct [Sfield.mk "Val" "val" "" false true .prim])) []).Nodup →
      ∃ e, prepareDestSpec (.ptr (.strct [Sfield.mk "Val" "val" "" false true .prim])) ["val"] =
          .error e ∧ e.code = .redundantCol) ∧
    ((aliasListOfType (.ptr (.strct [Sfield.mk "Val" "val" "" false true .prim])) []).Nodup →
      (∃ c ∈ ["val"],
        c ∉ aliasListOfType (.ptr (.strct [Sfield.mk "Val" "val" "" false true .prim])) []) →
      ∃ e, prepareDestSpec (.ptr (.strct [Sfield.mk "Val" "val" "" false true .prim])) ["val"] =
          .error e ∧ e.code = .noColDest) :=
  prepareDestSpec_alias_invariants
    (.ptr (.strct [Sfield.mk "Val" "val" "" false true .prim])) ["val"] rfl rfl

/-! ## C6: rendering of `Cols` -/

/-- Per the claim: `a1.a2.…an.t`, the names joined with dots. -/
def claimDotted : List String → String
  | [] => ""
  | x :: rest => x ++ (if rest = [] then "" else "." ++ claimDotted rest)

/-- Per the claim: `"a2"."a3".…"an"."t"`, each name double-quoted, joined
with dots. -/
def claimQuotedDotted : List String → String
  | [] => ""
  | x :: rest =>
    "\"" ++ x ++ "\"" ++ (if rest = [] then "" else "." ++ claimQuotedDotted rest)

/-- Per the claim: the selector of one leaf. A root-level leaf with tag `t`
renders as `"t"`; a nested leaf with ancestor tags `a1..an` and own tag `t`
renders as `("a1")."a2"..."an"."t" as "a1.a2...an.t"`. -/
def claimLeafSelector (path : List String) (t : String) : String :=
  match path with
  | [] => "\"" ++ t ++ "\""
  | a1 :: rest =>
    "(\"" ++ a1 ++ "\")" ++ "." ++ claimQuotedDotted (rest ++ [t]) ++
      " as " ++ "\"" ++ claimDotted (path ++ [t]) ++ "\""

/-- Per the claim: selectors joined with the two characters `, `. -/
def joinSelectors : List String → String
  | [] => ""
  | s :: rest => s ++ (if rest = [] then "" else ", " ++ joinSelectors rest)

mutual
/-- Per the claim's words: one selector per tagged leaf of the struct type,
a tagged nested record contributing the selectors of its own leaves under the
extended ancestor-tag path (and itself rendering nothing). -/
def claimSelectorsOfType (t : Rtype) (path : List String) : List String :=
  match h : derefRtype t with
  | .strct fields => claimSelectorsOfFields fields path
  | _ => []
termination_by sizeOf t
decreasing_by
  have h1 := sizeOf_derefRtype_le t
  rw [h] at h1
  simp at h1
  omega

/-- The field walk of `claimSelectorsOfType`. -/
def claimSelectorsOfFields : List Sfield → List String → List String
  | [], _ => []
  | f :: rest, path =>
    if f.exported = false then claimSelectorsOfFields rest path
    else if f.anonymous && isStructKind f.type then
      claimSelectorsOfType f.type path ++ claimSelectorsOfFields rest path
    else if sfieldColumnName f = "" then claimSelectorsOfFields rest path
    else if isRtypeStructNonScannable f.type then
      claimSelectorsOfType (derefRtype f.type) (path ++ [sfieldColumnName f]) ++
        claimSelectorsOfFields rest path
    else
      claimLeafSelector path (sfieldColumnName f) :: claimSelectorsOfFields rest path
termination_by fields _ => sizeOf fields
decreasing_by
  all_goals simp only [List.cons.sizeOf_spec]
  all_goals
    first
    | omega
    | (have h1 := sizeOf_sfield_type_lt f
       omega)
    | (have h1 := sizeOf_sfield_type_lt f
       have h2 := sizeOf_derefRtype_le f.type
       omega)
end

/-- The type `Cols` actually renders: the destination type dereferenced,
with one slice layer unwrapped. -/
def colsBase (t : Rtype) : Rtype :=
  match derefRtype t with
  | .slice e => derefRtype e
  | r => r

/-- The claim's reading of `Cols`: the per-tagged-leaf selectors, joined. -/
def claimCols (t : Rtype) : String :=
  joinSelectors (claimSelectorsOfType (colsBase t) [])

mutual
/-- The leaves of the ident tree actually built by the code: an ident with no
sub-idents renders a selector of its own (even when its field's type is a
struct that produced no idents); an interior ident only extends the path. -/
def identLeaves : SqlIdent → List String → List String
  | .mk name [], path => if name = "" then [] else [claimLeafSelector path name]
  | .mk name (id0 :: ids), path =>
    identLeavesList (id0 :: ids) (if name = "" then path else path ++ [name])
termination_by self _ => sizeOf self

/-- The leaves of a list of ident trees. -/
def identLeavesList : List SqlIdent → List String → List String
  | [], _ => []
  | id :: rest, path => identLeaves id path ++ identLeavesList rest path
termination_by l _ => sizeOf l
end

/-- The buffer-threading join of `appendSelect`: each selector is preceded by
`", "` exactly when the buffer is already non-empty. -/
def joinSelAux (buf : String) : List String → String
  | [] => buf
  | s :: rest => joinSelAux (if buf.length > 0 then buf ++ ", " ++ s else buf ++ s) rest

theorem joinSelAux_append (xs ys : List String) :
    ∀ buf, joinSelAux buf (xs ++ ys) = joinSelAux (joinSelAux buf xs) ys := by
  induction xs with
  | nil => intro buf; rfl
  | cons x r ih =>
    intro buf
    rw [List.cons_append, joinSelAux, joinSelAux]
    exact ih _

theorem joinSelAux_pos (sels : List String) :
    ∀ buf, 0 < buf.length →
      joinSelAux buf sels =
        buf ++ (if sels = [] then "" else ", " ++ joinSelectors sels) := by
  induction sels with
  | nil =>
    intro buf hb
    simp [joinSelAux, String.append_empty]
  | cons s rest ih =>
    intro buf hb
    rw [joinSelAux, if_pos hb, ih _ (by
        simp only [String.length_append]
        have h2 : ", ".length = 2 := rfl
        omega),
      joinSelectors]
    by_cases hr : rest = []
    · rw [if_pos hr, if_neg (by simp), String.append_empty]
      simp [String.append_assoc, String.append_empty]
    · rw [if_neg hr, if_neg (by simp)]
      simp [String.append_assoc]

theorem joinSelAux_empty (sels : List String)
    (h : ∀ s ∈ sels, 0 < s.length) : joinSelAux "" sels = joinSelectors sels := by
  cases sels with
  | nil => rfl
  | cons s rest =>
    rw [joinSelAux, if_neg (by simp), String.empty_append,
      joinSelAux_pos rest s (h s (by simp)), joinSelectors]

theorem claimDotted_splice (p : List String) :
    ∀ t tail, aliasDots p ++ (t ++ tail) = claimDotted (p ++ [t]) ++ tail := by
  induction p with
  | nil =>
    intro t tail
    simp [aliasDots, claimDotted, String.empty_append, String.append_empty,
      String.append_assoc]
  | cons x q ih =>
    intro t tail
    simp only [aliasDots, claimDotted, List.cons_append, String.append_assoc]
    rw [if_neg (by simp), ih t tail]
    simp [String.append_assoc]

theorem claimQuotedDotted_splice (p : List String) :
    ∀ t tail, identPathPrefix p false ++ ("\"" ++ (t ++ ("\"" ++ tail))) =
      claimQuotedDotted (p ++ [t]) ++ tail := by
  induction p with
  | nil =>
    intro t tail
    simp [identPathPrefix, claimQuotedDotted, String.empty_append,
      String.append_empty, String.append_assoc]
  | cons x q ih =>
    intro t tail
    simp only [identPathPrefix, claimQuotedDotted, Bool.false_eq_true, if_false,
      List.cons_append, String.append_assoc]
    rw [if_neg (by simp), ih t tail]
    simp [String.append_assoc]

theorem claimLeafSelector_pos (p : List String) (t : String) :
    0 < (claimLeafSelector p t).length := by
  cases p with
  | nil =>
    rw [claimLeafSelector]
    simp only [String.length_append]
    have h1 : "\"".length = 1 := rfl
    omega
  | cons a rest =>
    rw [claimLeafSelector]
    simp only [String.length_append]
    have h1 : "(\"".length = 2 := rfl
    omega

/-- Every selector emitted for the ident tree is a non-empty string. -/
theorem identLeavesList_pos :
    ∀ (l : List SqlIdent) (path : List String),
      ∀ s ∈ identLeavesList l path, 0 < s.length := by
  refine identLeavesList.induct
    (fun self path => ∀ s ∈ identLeaves self path, 0 < s.length)
    (fun l path => ∀ s ∈ identLeavesList l path, 0 < s.length)
    ?c1 ?c2 ?c3 ?c4 ?c5
  case c1 =>
    intro path s hs
    rw [identLeaves, if_pos rfl] at hs
    cases hs
  case c2 =>
    intro name path hname s hs
    rw [identLeaves, if_neg hname] at hs
    rcases List.mem_singleton.mp hs with rfl
    exact claimLeafSelector_pos path name
  case c3 =>
    intro name id0 ids path ih s hs
    rw [identLeaves] at hs
    by_cases hname : name = ""
    · rw [if_pos hname] at hs
      rw [dif_pos hname] at ih
      exact ih s hs
    · rw [if_neg hname] at hs
      rw [dif_neg hname] at ih
      exact ih s hs
  case c4 =>
    intro path s hs
    rw [identLeavesList] at hs
    cases hs
  case c5 =>
    intro id rest path ih1 ih2 s hs
    rw [identLeavesList] at hs
    rcases List.mem_append.mp hs with h | h
    · exact ih1 s h
    · exact ih2 s h

/-- A nested leaf's rendering by the code equals the claim's bit-exact
selector, appended to the buffer. -/
theorem render_nested (buf1 a : String) (rest : List String) (t : String) :
    appendIdentAlias (appendIdentPath buf1 (a :: rest) t ++ " as ") (a :: rest) t =
      buf1 ++ claimLeafSelector (a :: rest) t := by
  rw [appendIdentAlias, appendIdentPath, claimLeafSelector, identPathPrefix, aliasDots]
  rw [show ((a :: rest) ++ [t]) = a :: (rest ++ [t]) from rfl, claimDotted,
    if_neg (show ¬(rest ++ [t] = []) by simp)]
  simp only [if_true, String.append_assoc]
  rw [claimQuotedDotted_splice, claimDotted_splice]

/-- `appendSelect` renders exactly the leaves of the ident tree, joined into
the buffer. -/
theorem appendSelect_eq :
    ∀ (self : SqlIdent) (buf : String) (path : List String),
      appendSelect self buf path = joinSelAux buf (identLeaves self path) := by
  refine appendSelect.induct
    (fun self buf path =>
      appendSelect self buf path = joinSelAux buf (identLeaves self path))
    (fun l buf path =>
      appendSelectList l buf path = joinSelAux buf (identLeavesList l path))
    ?c1 ?c2 ?c3 ?c4 ?c5 ?c6
  case c1 =>
    intro buf path
    rw [appendSelect.eq_def]
    dsimp only
    rw [if_pos rfl, identLeaves, if_pos rfl, joinSelAux]
  case c2 =>
    intro name buf path hname hlen
    have hp : path = [] := List.length_eq_zero.mp hlen
    subst hp
    rw [appendSelect.eq_def]
    dsimp only
    rw [if_neg hname, if_pos (show ([] : List String).length = 0 from rfl),
      identLeaves, if_neg hname, joinSelAux, joinSelAux]
    by_cases hb : buf.length > 0
    · rw [if_pos hb, if_pos hb, appendIdentAlias, aliasDots, claimLeafSelector]
      simp only [String.append_assoc, String.append_empty, String.empty_append]
    · rw [if_neg hb, if_neg hb, appendIdentAlias, aliasDots, claimLeafSelector]
      simp only [String.append_assoc, String.append_empty, String.empty_append]
  case c3 =>
    intro name buf path hname hlen
    rcases path with _ | ⟨a, rest⟩
    · exact absurd rfl hlen
    rw [appendSelect.eq_def]
    dsimp only
    rw [if_neg hname, if_neg (by simpa using hlen), identLeaves, if_neg hname,
      joinSelAux, joinSelAux]
    by_cases hb : buf.length > 0
    · rw [if_pos hb, if_pos hb]
      exact render_nested (buf ++ ", ") a rest name
    · rw [if_neg hb, if_neg hb]
      exact render_nested buf a rest name
  case c4 =>
    intro name id0 ids buf path p1 ih
    rw [show p1 = (if h : name = "" then path else path ++ [name]) from rfl] at ih
    rw [appendSelect.eq_def]
    dsimp only
    rw [identLeaves]
    by_cases hname : name = ""
    · rw [dif_pos hname] at ih
      rw [if_pos hname]
      exact ih
    · rw [dif_neg hname] at ih
      rw [if_neg hname]
      exact ih
  case c5 =>
    intro buf x
    rw [appendSelectList, identLeavesList, joinSelAux]
  case c6 =>
    intro id rest buf path ih1 ih2
    rw [appendSelectList, identLeavesList, ih2, ih1, joinSelAux_append]

/-- The root ident (empty name) contributes the leaves of its sub-idents. -/
theorem identLeaves_root (l : List SqlIdent) (path : List String) :
    identLeaves (.mk "" l) path = identLeavesList l path := by
  cases l with
  | nil => rw [identLeaves, if_pos rfl, identLeavesList]
  | cons id0 ids => rw [identLeaves, if_pos rfl]

/-- C6 (amended): `Cols` renders one selector per leaf of the ident tree the
code builds — an ident with no sub-idents — in the claim's bit-exact
per-selector format, joined with `", "`; and on the claim's own example type
it produces exactly the claimed string. The claim's "one selector per tagged
leaf of R" reading fails when a tagged struct field contributes no idents
(see the counterexample): such a field renders as a selector itself. -/
theorem Cols_renders_ident_leaves :
    (∀ t : Rtype,
      Cols t =
        joinSelectors (identLeavesList (structRtypeSqlIdents (colsBase t)) [])) ∧
    Cols (.strct [Sfield.mk "Val" "val" "" false true .prim,
        Sfield.mk "Nested" "nested" "" false true
          (.ptr (.strct [Sfield.mk "Val" "val" "" false true (.ptr .prim)]))]) =
      "\"val\", (\"nested\").\"val\" as \"nested.val\"" := by
  have hgen : ∀ t : Rtype,
      Cols t =
        joinSelectors (identLeavesList (structRtypeSqlIdents (colsBase t)) []) := by
    intro t
    have h1 : Cols t =
        appendSelect (.mk "" (structRtypeSqlIdents (colsBase t))) "" [] := rfl
    rw [h1, appendSelect_eq, identLeaves_root]
    exact joinSelAux_empty _ (identLeavesList_pos _ _)
  refine ⟨hgen, ?_⟩
  rw [hgen]
  simp [colsBase, structRtypeSqlIdents, sqlIdentsOfFields, derefRtype,
    sfieldColumnName, Sfield.exported, Sfield.anonymous, Sfield.tag, Sfield.type,
    isStructKind, isRtypeStructNonScannable, isScannableRtype,
    identLeavesList, identLeaves, claimLeafSelector, claimQuotedDotted,
    claimDotted, joinSelectors]

/-- C6 counterexample: a tagged exported field whose struct type yields no
idents (here the inner struct's only field is untagged) is rendered by `Cols`
as a root selector of its own, while the claim's per-tagged-leaf rule renders
nothing for it: `Cols` and the claim's reading disagree on this type. -/
theorem Cols_extra_selector_counterexample :
    Cols (.strct [Sfield.mk "Val" "val" "" false true .prim,
        Sfield.mk "Nested" "nested" "" false true
          (.strct [Sfield.mk "Plain" "" "" false true .prim])]) =
      "\"val\", \"nested\"" ∧
    claimCols (.strct [Sfield.mk "Val" "val" "" false true .prim,
        Sfield.mk "Nested" "nested" "" false true
          (.strct [Sfield.mk "Plain" "" "" false true .prim])]) =
      "\"val\"" ∧
    Cols (.strct [Sfield.mk "Val" "val" "" false true .prim,
        Sfield.mk "Nested" "nested" "" false true
          (.strct [Sfield.mk "Plain" "" "" false true .prim])]) ≠
      claimCols (.strct [Sfield.mk "Val" "val" "" false true .prim,
        Sfield.mk "Nested" "nested" "" false true
          (.strct [Sfield.mk "Plain" "" "" false true .prim])]) := by
  have h1 : Cols (.strct [Sfield.mk "Val" "val" "" false true .prim,
      Sfield.mk "Nested" "nested" "" false true
        (.strct [Sfield.mk "Plain" "" "" false true .prim])]) =
      "\"val\", \"nested\"" := by
    simp [Cols, selectString, structRtypeSqlIdents, sqlIdentsOfFields, derefRtype,
      sfieldColumnName, Sfield.exported, Sfield.anonymous, Sfield.tag, Sfield.type,
      isStructKind, isRtypeStructNonScannable, isScannableRtype,
      appendSelect, appendSelectList, appendIdentAlias, appendIdentPath,
      identPathPrefix, aliasDots]
    decide
  have h2 : claimCols (.strct [Sfield.mk "Val" "val" "" false true .prim,
      Sfield.mk "Nested" "nested" "" false true
        (.strct [Sfield.mk "Plain" "" "" false true .prim])]) =
      "\"val\"" := by
    simp [claimCols, colsBase, claimSelectorsOfType, claimSelectorsOfFields,
      derefRtype, sfieldColumnName, Sfield.exported, Sfield.anonymous, Sfield.tag,
      Sfield.type, isStructKind, isRtypeStructNonScannable, isScannableRtype,
      claimLeafSelector, joinSelectors]
  refine ⟨h1, h2, ?_⟩
  intro h
  rw [h1, h2] at h
  exact absurd h (by decide)

/-! ## C4: frame property of the decoder -/

/-- Boolean divergence of two field paths: they share a (possibly empty)
prefix and then differ, both still non-empty. -/
def divergesB : List Nat → List Nat → Bool
  | [], _ => false
  | _, [] => false
  | a :: as_, b :: bs => if a = b then divergesB as_ bs else true

theorem divergesB_diverges : ∀ p q, divergesB p q = true → Diverges p q := by
  intro p
  induction p with
  | nil => intro q h; rw [divergesB] at h; cases h
  | cons a as_ ih =>
    intro q h
    cases q with
    | nil =>
      rw [divergesB.eq_def] at h
      dsimp at h
      exact absurd h (by decide)
    | cons b bs =>
      rw [divergesB] at h
      by_cases hab : a = b
      · subst hab
        rw [if_pos rfl] at h
        exact Diverges.cons a (ih bs h)
      · exact Diverges.head as_ bs hab

/-- Every column-mapped (`colIndex ≥ 0`) field spec in the tree has a field
path diverging from `p`. -/
def treeMappedDiverge (p : List Nat) : List FieldSpec → Bool
  | [] => true
  | fs :: rest =>
    (decide (fs.colIndex < 0) || divergesB p fs.fieldPath) &&
      treeMappedDiverge p fs.children && treeMappedDiverge p rest
termination_by l => sizeOf l
decreasing_by
  · have h1 := sizeOf_fieldSpec_children_lt fs
    simp only [List.cons.sizeOf_spec]
    omega
  · simp only [List.cons.sizeOf_spec]
    omega

theorem treeMappedDiverge_cons_parts (p : List Nat) (fs : FieldSpec)
    (rest : List FieldSpec) (h : treeMappedDiverge p (fs :: rest) = true) :
    (fs.colIndex < 0 ∨ Diverges p fs.fieldPath) ∧
      treeMappedDiverge p fs.children = true ∧ treeMappedDiverge p rest = true := by
  rw [treeMappedDiverge] at h
  simp only [Bool.and_eq_true, Bool.or_eq_true, decide_eq_true_eq] at h
  refine ⟨?_, h.1.2, h.2⟩
  rcases h.1.1 with h' | h'
  · exact Or.inl h'
  · exact Or.inr (divergesB_diverges _ _ h')

theorem treeMappedDiverge_all (p : List Nat) (l : List FieldSpec)
    (h : treeMappedDiverge p l = true) :
    ∀ g ∈ l, g.colIndex < 0 ∨ Diverges p g.fieldPath := by
  induction l with
  | nil => intro g hg; cases hg
  | cons fs rest ih =>
    intro g hg
    have hp := treeMappedDiverge_cons_parts p fs rest h
    rcases List.mem_cons.mp hg with rfl | hg'
    · exact hp.1
    · exact ih hp.2.2 g hg'

/-- `decodeOneField` preserves diverging paths; a `colIndex < 0` spec writes
nothing at all. -/
theorem decodeOneField_preserves_skip (rootRtype tsRtype : Rtype) (state : Row)
    (root : Rval) (fs : FieldSpec) (p : List Nat) (x : Rval)
    (hdiv : fs.colIndex < 0 ∨ Diverges p fs.fieldPath)
    (hget : getAtPath root p = some x)
    (hw : UpdWalks rootRtype root p = true) :
    getAtPath (decodeOneField rootRtype tsRtype state root fs).1 p = some x ∧
    UpdWalks rootRtype (decodeOneField rootRtype tsRtype state root fs).1 p = true := by
  rcases hdiv with hneg | hdiv
  · rw [decodeOneField, if_pos hneg]
    exact ⟨hget, hw⟩
  · exact decodeOneField_preserves rootRtype tsRtype state root fs p x hdiv hget hw

/-- The second decode loop preserves any path that every column-mapped spec
of the processed list diverges from. -/
theorem decodeFields_preserves_skip (rootRtype tsRtype : Rtype) (state : Row)
    (l : List FieldSpec) (root : Rval) (p : List Nat) (x : Rval)
    (hdiv : ∀ g ∈ l, g.colIndex < 0 ∨ Diverges p g.fieldPath)
    (hget : getAtPath root p = some x)
    (hw : UpdWalks rootRtype root p = true) :
    getAtPath (decodeFields rootRtype tsRtype state root l).1 p = some x ∧
    UpdWalks rootRtype (decodeFields rootRtype tsRtype state root l).1 p = true := by
  induction l generalizing root with
  | nil => exact ⟨hget, hw⟩
  | cons fs rest ih =>
    have h1 := decodeOneField_preserves_skip rootRtype tsRtype state root fs p x
      (hdiv fs (by simp)) hget hw
    rw [decodeFields]
    rcases hone : decodeOneField rootRtype tsRtype state root fs with ⟨r1, _ | e⟩
    · rw [hone] at h1
      exact ih r1 (fun g hg => hdiv g (by simp [hg])) h1.1 h1.2
    · rw [hone] at h1
      exact h1

/-- The full decoder walk preserves reads and walkability at any path that
every column-mapped spec of the tree diverges from. -/
theorem traverseDecode_frame (rootRtype : Rtype) :
    ∀ (root : Rval) (state : Row) (tsRtype : Rtype) (fieldSpecs : List FieldSpec)
      (fieldSpec? : Option FieldSpec),
      ∀ p, treeMappedDiverge p fieldSpecs = true →
        ∀ x, getAtPath root p = some x → UpdWalks rootRtype root p = true →
          getAtPath (traverseDecode rootRtype root state tsRtype fieldSpecs fieldSpec?).1 p
              = some x ∧
          UpdWalks rootRtype
              (traverseDecode rootRtype root state tsRtype fieldSpecs fieldSpec?).1 p
              = true := by
  refine traverseDecode.induct rootRtype
    (fun root state tsRtype fieldSpecs fieldSpec? =>
      ∀ p, treeMappedDiverge p fieldSpecs = true →
        ∀ x, getAtPath root p = some x → UpdWalks rootRtype root p = true →
          getAtPath (traverseDecode rootRtype root state tsRtype fieldSpecs fieldSpec?).1 p
              = some x ∧
          UpdWalks rootRtype
              (traverseDecode rootRtype root state tsRtype fieldSpecs fieldSpec?).1 p = true)
    (fun root state l everyNil =>
      ∀ p, treeMappedDiverge p l = true →
        ∀ x, getAtPath root p = some x → UpdWalks rootRtype root p = true →
          getAtPath (decodePass1 rootRtype root state l everyNil).1 p = some x ∧
          UpdWalks rootRtype (decodePass1 rootRtype root state l everyNil).1 p = true)
    ?c1 ?c2 ?c3 ?c4 ?c5 ?c6 ?c7 ?c8 ?c9 ?c10 ?c11 ?c12 ?c13
  case c1 =>
    intro root state tsRtype fieldSpecs fieldSpec? root1 e snd hpass ih2
    intro p htree x hget hw
    have h2 := ih2 p htree x hget hw
    rw [hpass] at h2
    rw [traverseDecode.eq_def, hpass]
    exact h2
  case c2 =>
    intro root state tsRtype fieldSpecs root1 everyNil hpass fs hcond ih2
    intro p htree x hget hw
    have h2 := ih2 p htree x hget hw
    rw [hpass] at h2
    rw [traverseDecode.eq_def, hpass]
    dsimp only
    rw [if_pos hcond]
    exact h2
  case c3 =>
    intro root state tsRtype fieldSpecs root1 everyNil hpass fs hcond ih2
    intro p htree x hget hw
    have h2 := ih2 p htree x hget hw
    rw [hpass] at h2
    rw [traverseDecode.eq_def, hpass]
    dsimp only
    rw [if_neg hcond]
    exact decodeFields_preserves_skip rootRtype tsRtype state fieldSpecs root1 p x
      (treeMappedDiverge_all p fieldSpecs htree) h2.1 h2.2
  case c4 =>
    intro root state tsRtype fieldSpecs root1 everyNil hpass ih2
    intro p htree x hget hw
    have h2 := ih2 p htree x hget hw
    rw [hpass] at h2
    rw [traverseDecode.eq_def, hpass]
    dsimp only
    exact decodeFields_preserves_skip rootRtype tsRtype state fieldSpecs root1 p x
      (treeMappedDiverge_all p fieldSpecs htree) h2.1 h2.2
  case c5 =>
    intro root state everyNil
    intro p htree x hget hw
    rw [decodePass1]
    exact ⟨hget, hw⟩
  case c6 =>
    intro root state fs rest everyNil hexp ih
    intro p htree x hget hw
    have hp := treeMappedDiverge_cons_parts p fs rest htree
    rw [decodePass1, if_pos hexp]
    exact ih p hp.2.2 x hget hw
  case c7 =>
    intro root state fs rest everyNil hexp hanon root1 e htrav ih1
    intro p htree x hget hw
    have hp := treeMappedDiverge_cons_parts p fs rest htree
    have h1 := ih1 p hp.2.1 x hget hw
    rw [htrav] at h1
    rw [decodePass1, if_neg hexp, if_pos hanon, htrav]
    exact h1
  case c8 =>
    intro root state fs rest everyNil hexp hanon root1 htrav ih1 ih2
    intro p htree x hget hw
    have hp := treeMappedDiverge_cons_parts p fs rest htree
    have h1 := ih1 p hp.2.1 x hget hw
    rw [htrav] at h1
    rw [decodePass1, if_neg hexp, if_pos hanon, htrav]
    exact ih2 p hp.2.2 x h1.1 h1.2
  case c9 =>
    intro root state fs rest everyNil hexp hanon hcol ih
    intro p htree x hget hw
    have hp := treeMappedDiverge_cons_parts p fs rest htree
    rw [decodePass1, if_neg hexp, if_neg hanon, if_pos hcol]
    exact ih p hp.2.2 x hget hw
  case c10 =>
    intro root state fs rest everyNil hexp hanon hcol hsn root1 e htrav ih1
    intro p htree x hget hw
    have hp := treeMappedDiverge_cons_parts p fs rest htree
    have h1 := ih1 p hp.2.1 x hget hw
    rw [htrav] at h1
    rw [decodePass1, if_neg hexp, if_neg hanon, if_neg hcol, if_pos hsn, htrav]
    exact h1
  case c11 =>
    intro root state fs rest everyNil hexp hanon hcol hsn root1 htrav ih1 ih2
    intro p htree x hget hw
    have hp := treeMappedDiverge_cons_parts p fs rest htree
    have h1 := ih1 p hp.2.1 x hget hw
    rw [htrav] at h1
    rw [decodePass1, if_neg hexp, if_neg hanon, if_neg hcol, if_pos hsn, htrav]
    exact ih2 p hp.2.2 x h1.1 h1.2
  case c12 =>
    intro root state fs rest everyNil hexp hanon hcol hsn hlt ih
    intro p htree x hget hw
    have hp := treeMappedDiverge_cons_parts p fs rest htree
    rw [decodePass1, if_neg hexp, if_neg hanon, if_neg hcol, if_neg hsn, if_pos hlt]
    exact ih p hp.2.2 x hget hw
  case c13 =>
    intro root state fs rest everyNil hexp hanon hcol hsn hlt e1 ih
    intro p htree x hget hw
    have hp := treeMappedDiverge_cons_parts p fs rest htree
    rw [decodePass1, if_neg hexp, if_neg hanon, if_neg hcol, if_neg hsn, if_neg hlt]
    exact ih p hp.2.2 x hget hw

/-- C4 (amended): a destination path that every column-mapped field spec of
the plan diverges from — in particular the path of a leaf field with
`colIndex = -1` (no tag, tag `-`, or an alias not selected by the query)
none of whose ancestors or descendants is column-mapped — is not modified by
the decode: its prior value is preserved. The claim's unrestricted version is
false for interior unmapped records with column-mapped descendants (see the
counterexample). -/
theorem decode_preserves_unmapped_paths (spec : TDestSpec) (root : Rval)
    (state : Row) (p : List Nat) (x : Rval)
    (hdiv : treeMappedDiverge p spec.fieldSpecs = true)
    (hget : getAtPath root p = some x)
    (hw : UpdWalks spec.rootRtype root p = true) :
    getAtPath (traverseDecodeRoot spec root state).1 p = some x :=
  (traverseDecode_frame spec.rootRtype root state spec.rootRtype spec.fieldSpecs none
    p hdiv x hget hw).1

/-- Witness for C4: a two-leaf struct where only `val` is selected; the
unmapped leaf `keep` keeps its prior value. -/
theorem decode_preserves_unmapped_paths_witness :
    treeMappedDiverge [1]
        [FieldSpec.mk (Sfield.mk "Val" "val" "" false true .prim) [0] "val" "val" 0
          [.prim] [],
         FieldSpec.mk (Sfield.mk "Keep" "keep" "" false true .prim) [1] "keep" "keep"
          (-1) [.prim] []] = true ∧
    getAtPath (.strct [.str "a", .str "b"]) [1] = some (.str "b") ∧
    UpdWalks (.strct [Sfield.mk "Val" "val" "" false true .prim,
        Sfield.mk "Keep" "keep" "" false true .prim])
      (.strct [.str "a", .str "b"]) [1] = true ∧
    getAtPath
        (traverseDecodeRoot
          { colNames := ["val"],
            colRtypes := [("val", .prim), ("keep", .prim)],
            rootRtype := .strct [Sfield.mk "Val" "val" "" false true .prim,
              Sfield.mk "Keep" "keep" "" false true .prim],
            fieldSpecs :=
              [FieldSpec.mk (Sfield.mk "Val" "val" "" false true .prim) [0] "val" "val" 0
                [.prim] [],
               FieldSpec.mk (Sfield.mk "Keep" "keep" "" false true .prim) [1] "keep"
                "keep" (-1) [.prim] []] }
          (.strct [.str "a", .str "b"]) [some (.str "x")]).1 [1] = some (.str "b") := by
  have h1 : treeMappedDiverge [1]
      [FieldSpec.mk (Sfield.mk "Val" "val" "" false true .prim) [0] "val" "val" 0
        [.prim] [],
       FieldSpec.mk (Sfield.mk "Keep" "keep" "" false true .prim) [1] "keep" "keep"
        (-1) [.prim] []] = true := by
    simp [treeMappedDiverge, divergesB, FieldSpec.colIndex, FieldSpec.fieldPath,
      FieldSpec.children]
  have h2 : getAtPath (.strct [.str "a", .str "b"]) [1] = some (.str "b") := by
    simp
  have h3 : UpdWalks (.strct [Sfield.mk "Val" "val" "" false true .prim,
      Sfield.mk "Keep" "keep" "" false true .prim])
      (.strct [.str "a", .str "b"]) [1] = true := by
    simp
  exact ⟨h1, h2, h3,
    decode_preserves_unmapped_paths
      { colNames := ["val"],
        colRtypes := [("val", .prim), ("keep", .prim)],
        rootRtype := .strct [Sfield.mk "Val" "val" "" false true .prim,
          Sfield.mk "Keep" "keep" "" false true .prim],
        fieldSpecs :=
          [FieldSpec.mk (Sfield.mk "Val" "val" "" false true .prim) [0] "val" "val" 0
            [.prim] [],
           FieldSpec.mk (Sfield.mk "Keep" "keep" "" false true .prim) [1] "keep"
            "keep" (-1) [.prim] []] }
      (.strct [.str "a", .str "b"]) [some (.str "x")] [1] (.str "b") h1 h2 h3⟩

/-- C4 counterexample: a plan really built by `prepareDestSpec` contains an
interior field spec (the nested record `nested`, field path `[0]`) whose
alias is not among the driver columns, so its `colIndex` is `-1`; yet the
decode modifies that field, because its child leaf `nested.val` is
column-mapped and written through it. -/
theorem decode_modifies_unmapped_interior_field :
    prepareDestSpec
        (.ptr (.strct [Sfield.mk "Nested" "nested" "" false true
          (.strct [Sfield.mk "Val" "val" "" false true .prim])]))
        ["nested.val"] =
      .ok
        { colNames := ["nested.val"],
          colRtypes :=
            [("nested", .strct [Sfield.mk "Val" "val" "" false true .prim]),
             ("nested.val", .prim)],
          rootRtype := .ptr (.strct [Sfield.mk "Nested" "nested" "" false true
            (.strct [Sfield.mk "Val" "val" "" false true .prim])]),
          fieldSpecs :=
            [FieldSpec.mk
              (Sfield.mk "Nested" "nested" "" false true
                (.strct [Sfield.mk "Val" "val" "" false true .prim]))
              [0] "nested" "nested" (-1)
              [.strct [Sfield.mk "Val" "val" "" false true .prim]]
              [FieldSpec.mk (Sfield.mk "Val" "val" "" false true .prim) [0, 0] "val"
                "nested.val" 0
                [.prim, .strct [Sfield.mk "Val" "val" "" false true .prim]] []]] } ∧
    (traverseDecodeRoot
        { colNames := ["nested.val"],
          colRtypes :=
            [("nested", .strct [Sfield.mk "Val" "val" "" false true .prim]),
             ("nested.val", .prim)],
          rootRtype := .ptr (.strct [Sfield.mk "Nested" "nested" "" false true
            (.strct [Sfield.mk "Val" "val" "" false true .prim])]),
          fieldSpecs :=
            [FieldSpec.mk
              (Sfield.mk "Nested" "nested" "" false true
                (.strct [Sfield.mk "Val" "val" "" false true .prim]))
              [0] "nested" "nested" (-1)
              [.strct [Sfield.mk "Val" "val" "" false true .prim]]
              [FieldSpec.mk (Sfield.mk "Val" "val" "" false true .prim) [0, 0] "val"
                "nested.val" 0
                [.prim, .strct [Sfield.mk "Val" "val" "" false true .prim]] []]] }
        (.ptr (some (.strct [.strct [.str "old"]]))) [some (.str "new")]).1 =
      .ptr (some (.strct [.strct [.str "new"]])) ∧
    getAtPath (.ptr (some (.strct [.strct [.str "old"]]))) [0] =
      some (.strct [.str "old"]) ∧
    getAtPath (.ptr (some (.strct [.strct [.str "new"]]))) [0] =
      some (.strct [.str "new"]) ∧
    (Rval.strct [.str "old"]) ≠ (Rval.strct [.str "new"]) := by
  refine ⟨?_, ?_, by simp, by simp, by intro h; simp at h⟩
  · have e1 : ".".intercalate ["nested"] = "nested" := rfl
    have e2 : ".".intercalate ["nested", "val"] = "nested.val" := rfl
    simp [prepareDestSpec, isPtrKind, isStructKind, derefRtype, traverseMakeSpec,
      makeSpecFields, refWalk, sfieldColumnName, Sfield.exported, Sfield.anonymous,
      Sfield.tag, Sfield.roleTag, Sfield.name, Sfield.type, aliasLookup, stringIndex,
      isRtypeStructNonScannable, isScannableRtype, checkColsHaveDest, e1, e2]
  · simp [traverseDecodeRoot, traverseDecode, decodePass1, decodeFields,
      decodeOneField, getCol, setAtPath, allocAtPath, rvalZeroAtPath, updAtPath_ptr,
      updAtPath_strct, updAtPath_nil, isRtypeNilable, isNilableRtype, sfieldTypeAt,
      zeroOfType, FieldSpec.colIndex, FieldSpec.fieldPath, FieldSpec.children,
      FieldSpec.sfield, FieldSpec.colName, FieldSpec.chain, Sfield.exported,
      Sfield.anonymous, Sfield.type, Sfield.name, isStructKind, derefRtype,
      isRtypeStructNonScannable, isScannableRtype,
      isNilableOrHasNilableNonRootAncestor]

/-! ## C1: elision of all-null nested records -/

/-- Membership of a field spec anywhere in a spec tree. -/
inductive InTree (fs : FieldSpec) : List FieldSpec → Prop where
  | here {l : List FieldSpec} (h : fs ∈ l) : InTree fs l
  | deeper {l : List FieldSpec} (g : FieldSpec) (hg : g ∈ l)
      (h : InTree fs g.children) : InTree fs l

/-- The chain bookkeeping `traverseMakeSpec` maintains: every spec's `chain`
is its own field type consed onto its parent's chain, recursively. -/
inductive ChainsWF : List Rtype → List FieldSpec → Prop where
  | nil (pc : List Rtype) : ChainsWF pc []
  | cons (pc : List Rtype) (fs : FieldSpec) (rest : List FieldSpec)
      (hch : fs.chain = fs.sfield.type :: pc)
      (hkids : ChainsWF fs.chain fs.children)
      (hrest : ChainsWF pc rest) : ChainsWF pc (fs :: rest)

/-- Every column-mapped spec in the tree reads a NULL cell from the row. -/
def subtreeNullsB (state : Row) : List FieldSpec → Bool
  | [] => true
  | fs :: rest =>
    (decide (fs.colIndex < 0) || (getCol state fs.colIndex).isNone) &&
      subtreeNullsB state fs.children && subtreeNullsB state rest
termination_by l => sizeOf l
decreasing_by
  · have h1 := sizeOf_fieldSpec_children_lt fs
    simp only [List.cons.sizeOf_spec]
    omega
  · simp only [List.cons.sizeOf_spec]
    omega

theorem subtreeNullsB_cons_parts (state : Row) (fs : FieldSpec)
    (rest : List FieldSpec) (h : subtreeNullsB state (fs :: rest) = true) :
    (fs.colIndex < 0 ∨ (getCol state fs.colIndex).isNone = true) ∧
      subtreeNullsB state fs.children = true ∧ subtreeNullsB state rest = true := by
  rw [subtreeNullsB] at h
  simp only [Bool.and_eq_true, Bool.or_eq_true, decide_eq_true_eq] at h
  exact ⟨h.1.1, h.1.2, h.2⟩

theorem chainsWF_member {pc : List Rtype} {l : List FieldSpec}
    (h : ChainsWF pc l) {fs : FieldSpec} (hm : fs ∈ l) :
    fs.chain = fs.sfield.type :: pc ∧ ChainsWF fs.chain fs.children := by
  induction l with
  | nil => cases hm
  | cons g rest ih =>
    cases h with
    | cons _ _ _ hch hkids hrest =>
      rcases List.mem_cons.mp hm with rfl | hm'
      · exact ⟨hch, hkids⟩
      · exact ih hrest hm'

theorem chainsWF_inTree {pc : List Rtype} {l : List FieldSpec}
    (h : ChainsWF pc l) {fs : FieldSpec} (hin : InTree fs l) :
    ChainsWF fs.chain fs.children := by
  induction hin generalizing pc with
  | here hm => exact (chainsWF_member h hm).2
  | deeper g hg hsub ih => exact ih (chainsWF_member h hg).2

/-- Every plan the builder produces has well-formed chains. -/
theorem makeSpec_chainsWF :
    ∀ (fields : List Sfield) (i : Nat) (colNames : List String) (m : AliasMap)
      (parentChain : List Rtype) (colPath : List String) (fieldPath : List Nat)
      (s : List FieldSpec) (mm : AliasMap),
      makeSpecFields fields i colNames m parentChain colPath fieldPath = .ok (s, mm) →
      ChainsWF parentChain s := by
  refine makeSpecFields.induct
    (fun typ colNames m parentChain colPath fieldPath =>
      ∀ s mm, traverseMakeSpec typ colNames m parentChain colPath fieldPath =
        .ok (s, mm) → ChainsWF parentChain s)
    (fun fields i colNames m parentChain colPath fieldPath =>
      ∀ s mm, makeSpecFields fields i colNames m parentChain colPath fieldPath =
        .ok (s, mm) → ChainsWF parentChain s)
    ?c1 ?c2 ?c3 ?c4 ?c5 ?c6 ?c7 ?c8 ?c9 ?c10 ?c11 ?c12 ?c13 ?c14 ?c15 ?c16
  case c1 =>
    intro typ colNames m parentChain colPath fieldPath fields hd ih
    rw [traverseMakeSpec_strct _ _ _ _ _ _ _ hd]
    exact ih
  case c2 =>
    intro typ colNames m parentChain colPath fieldPath h
    rw [traverseMakeSpec_other _ _ _ _ _ _ (fun fields hh => h fields hh)]
    intro s mm hok
    cases hok
    exact ChainsWF.nil _
  case c3 =>
    intro i colNames m parentChain colPath fieldPath
    rw [makeSpecFields]
    intro s mm hok
    cases hok
    exact ChainsWF.nil _
  case c4 =>
    intro i colNames m parentChain colPath fieldPath f rest hexp e hsub ih
    rw [makeSpecFields.eq_def]
    dsimp only
    rw [if_pos hexp, hsub]
    intro s mm hok
    cases hok
  case c5 =>
    intro i colNames m parentChain colPath fieldPath f rest hexp specs m' hsub ih
    rw [makeSpecFields.eq_def]
    dsimp only
    rw [if_pos hexp, hsub]
    intro s mm hok
    cases hok
    exact ChainsWF.cons _ _ _ rfl (ChainsWF.nil _) (ih _ _ hsub)
  case c6 =>
    intro i colNames m parentChain colPath fieldPath f rest fpI ch hexp hanon e hsub ih1
    rw [show ch = f.type :: parentChain from rfl, show fpI = fieldPath ++ [i] from rfl]
      at hsub ih1
    rw [makeSpecFields.eq_def]
    dsimp only
    rw [if_neg hexp, if_pos hanon, hsub]
    intro s mm hok
    cases hok
  case c7 =>
    intro i colNames m parentChain colPath fieldPath f rest fpI ch hexp hanon specs m'
      hsub1 e hsub2 ih1 ih2
    rw [show ch = f.type :: parentChain from rfl, show fpI = fieldPath ++ [i] from rfl]
      at hsub1 ih1
    rw [makeSpecFields.eq_def]
    dsimp only
    rw [if_neg hexp, if_pos hanon, hsub1]
    dsimp only
    rw [hsub2]
    intro s mm hok
    cases hok
  case c8 =>
    intro i colNames m parentChain colPath fieldPath f rest fpI ch hexp hanon specs m'
      hsub1 specs2 m2 hsub2 ih1 ih2
    rw [show ch = f.type :: parentChain from rfl, show fpI = fieldPath ++ [i] from rfl]
      at hsub1 ih1
    rw [makeSpecFields.eq_def]
    dsimp only
    rw [if_neg hexp, if_pos hanon, hsub1]
    dsimp only
    rw [hsub2]
    intro s mm hok
    cases hok
    exact ChainsWF.cons _ _ _ rfl (ih1 _ _ hsub1) (ih2 _ _ hsub2)
  case c9 =>
    intro i colNames m parentChain colPath fieldPath f rest hexp hanon hcol e hsub ih
    rw [makeSpecFields.eq_def]
    dsimp only
    rw [if_neg hexp, if_neg hanon, if_pos hcol, hsub]
    intro s mm hok
    cases hok
  case c10 =>
    intro i colNames m parentChain colPath fieldPath f rest hexp hanon hcol specs m' hsub ih
    rw [makeSpecFields.eq_def]
    dsimp only
    rw [if_neg hexp, if_neg hanon, if_pos hcol, hsub]
    intro s mm hok
    cases hok
    exact ChainsWF.cons _ _ _ rfl (ChainsWF.nil _) (ih _ _ hsub)
  case c11 =>
    intro i colNames m parentChain colPath fieldPath f rest hexp hanon hcol colName colPathI
      colAlias hlook
    rw [show colAlias = String.intercalate "." (colPathI) from rfl,
      show colPathI = colPath ++ [colName] from rfl,
      show colName = sfieldColumnName f from rfl] at hlook
    rw [makeSpecFields.eq_def]
    dsimp only
    rw [if_neg hexp, if_neg hanon, if_neg hcol, if_pos hlook]
    intro s mm hok
    cases hok
  case c12 =>
    intro i colNames m parentChain colPath fieldPath f rest fpI ch hexp hanon hcol colName
      innerT innerPath colPathI colAlias hlook m1 hsn e hsub ih1
    rw [show m1 = m ++ [(colAlias, f.type)] from rfl] at hsub ih1
    rw [show innerT = (refWalk (derefRtype f.type) fpI).1 from rfl] at hsn hsub ih1
    rw [show innerPath = (refWalk (derefRtype f.type) fpI).2 from rfl] at hsub ih1
    rw [show colAlias = String.intercalate "." colPathI from rfl] at hlook hsub ih1
    rw [show colPathI = colPath ++ [colName] from rfl] at hlook hsub ih1
    rw [show colName = sfieldColumnName f from rfl] at hlook hsub ih1
    rw [show fpI = fieldPath ++ [i] from rfl] at hsn hsub ih1
    rw [show ch = f.type :: parentChain from rfl] at hsub ih1
    rw [makeSpecFields.eq_def]
    dsimp only
    rw [if_neg hexp, if_neg hanon, if_neg hcol, if_neg hlook, if_pos hsn, hsub]
    intro s mm hok
    cases hok
  case c13 =>
    intro i colNames m parentChain colPath fieldPath f rest fpI ch hexp hanon hcol colName
      innerT innerPath colPathI colAlias hlook m1 hsn specs m' hsub1 e hsub2 ih1 ih2
    rw [show m1 = m ++ [(colAlias, f.type)] from rfl] at hsub1 ih1
    rw [show innerT = (refWalk (derefRtype f.type) fpI).1 from rfl] at hsn hsub1 ih1
    rw [show innerPath = (refWalk (derefRtype f.type) fpI).2 from rfl] at hsub1 ih1
    rw [show colAlias = String.intercalate "." colPathI from rfl] at hlook hsub1 ih1
    rw [show colPathI = colPath ++ [colName] from rfl] at hlook hsub1 ih1
    rw [show colName = sfieldColumnName f from rfl] at hlook hsub1 ih1
    rw [show fpI = fieldPath ++ [i] from rfl] at hsn hsub1 ih1
    rw [show ch = f.type :: parentChain from rfl] at hsub1 ih1
    rw [makeSpecFields.eq_def]
    dsimp only
    rw [if_neg hexp, if_neg hanon, if_neg hcol, if_neg hlook, if_pos hsn, hsub1]
    dsimp only
    rw [hsub2]
    intro s mm hok
    cases hok
  case c14 =>
    intro i colNames m parentChain colPath fieldPath f rest fpI ch hexp hanon hcol colName
      innerT innerPath colPathI colAlias hlook m1 hsn specs m' hsub1 specs2 m2 hsub2 ih1 ih2
    rw [show m1 = m ++ [(colAlias, f.type)] from rfl] at hsub1 ih1
    rw [show innerT = (refWalk (derefRtype f.type) fpI).1 from rfl] at hsn hsub1 ih1
    rw [show innerPath = (refWalk (derefRtype f.type) fpI).2 from rfl] at hsub1 ih1
    rw [show colAlias = String.intercalate "." colPathI from rfl] at hlook hsub1 ih1
    rw [show colPathI = colPath ++ [colName] from rfl] at hlook hsub1 ih1
    rw [show colName = sfieldColumnName f from rfl] at hlook hsub1 ih1
    rw [show fpI = fieldPath ++ [i] from rfl] at hsn hsub1 ih1
    rw [show ch = f.type :: parentChain from rfl] at hsub1 ih1
    rw [makeSpecFields.eq_def]
    dsimp only
    rw [if_neg hexp, if_neg hanon, if_neg hcol, if_neg hlook, if_pos hsn, hsub1]
    dsimp only
    rw [hsub2]
    intro s mm hok
    cases hok
    exact ChainsWF.cons _ _ _ rfl (ih1 _ _ hsub1) (ih2 _ _ hsub2)
  case c15 =>
    intro i colNames m parentChain colPath fieldPath f rest fpI hexp hanon hcol colName
      innerT colPathI colAlias hlook m1 hsn e hsub ih
    rw [show m1 = m ++ [(colAlias, f.type)] from rfl] at hsub ih
    rw [show innerT = (refWalk (derefRtype f.type) fpI).1 from rfl] at hsn
    rw [show colAlias = String.intercalate "." colPathI from rfl] at hlook hsub ih
    rw [show colPathI = colPath ++ [colName] from rfl] at hlook hsub ih
    rw [show colName = sfieldColumnName f from rfl] at hlook hsub ih
    rw [show fpI = fieldPath ++ [i] from rfl] at hsn
    rw [makeSpecFields.eq_def]
    dsimp only
    rw [if_neg hexp, if_neg hanon, if_neg hcol, if_neg hlook, if_neg hsn, hsub]
    intro s mm hok
    cases hok
  case c16 =>
    intro i colNames m parentChain colPath fieldPath f rest fpI hexp hanon hcol colName
      innerT colPathI colAlias hlook m1 hsn specs m' hsub ih
    rw [show m1 = m ++ [(colAlias, f.type)] from rfl] at hsub ih
    rw [show innerT = (refWalk (derefRtype f.type) fpI).1 from rfl] at hsn
    rw [show colAlias = String.intercalate "." colPathI from rfl] at hlook hsub ih
    rw [show colPathI = colPath ++ [colName] from rfl] at hlook hsub ih
    rw [show colName = sfieldColumnName f from rfl] at hlook hsub ih
    rw [show fpI = fieldPath ++ [i] from rfl] at hsn
    rw [makeSpecFields.eq_def]
    dsimp only
    rw [if_neg hexp, if_neg hanon, if_neg hcol, if_neg hlook, if_neg hsn, hsub]
    intro s mm hok
    cases hok
    exact ChainsWF.cons _ _ _ rfl (ChainsWF.nil _) (ih _ _ hsub)

/-- Chains of a full plan walk are well formed from the given parent chain. -/
theorem traverse_chainsWF (typ : Rtype) (colNames : List String) (m : AliasMap)
    (parentChain : List Rtype) (colPath : List String) (fieldPath : List Nat)
    (s : List FieldSpec) (mm : AliasMap)
    (h : traverseMakeSpec typ colNames m parentChain colPath fieldPath = .ok (s, mm)) :
    ChainsWF parentChain s := by
  by_cases hd : ∀ fields, derefRtype typ ≠ Rtype.strct fields
  · rw [traverseMakeSpec_other _ _ _ _ _ _ hd] at h
    cases h
    exact ChainsWF.nil _
  · push_neg at hd
    obtain ⟨fields, hd⟩ := hd
    rw [traverseMakeSpec_strct _ _ _ _ _ _ _ hd] at h
    exact makeSpec_chainsWF fields 0 colNames m parentChain colPath fieldPath s mm h

/-- When every column mapped below a nested node is NULL and the node is
elidable, the decoder's node call returns the root unchanged with no error:
the nested sub-value is neither allocated nor modified. -/
theorem traverseDecode_elide (rootRtype : Rtype) :
    ∀ (root : Rval) (state : Row) (tsRtype : Rtype) (fieldSpecs : List FieldSpec)
      (fieldSpec? : Option FieldSpec),
      ∀ fs, fieldSpec? = some fs → ChainsWF fs.chain fieldSpecs →
        subtreeNullsB state fieldSpecs = true →
        isNilableOrHasNilableNonRootAncestor fs.chain = true →
        traverseDecode rootRtype root state tsRtype fieldSpecs fieldSpec? =
          (root, none) := by
  refine traverseDecode.induct rootRtype
    (fun root state tsRtype fieldSpecs fieldSpec? =>
      ∀ fs, fieldSpec? = some fs → ChainsWF fs.chain fieldSpecs →
        subtreeNullsB state fieldSpecs = true →
        isNilableOrHasNilableNonRootAncestor fs.chain = true →
        traverseDecode rootRtype root state tsRtype fieldSpecs fieldSpec? = (root, none))
    (fun root state l everyNil =>
      ∀ c, ChainsWF c l → isNilableOrHasNilableNonRootAncestor c = true →
        subtreeNullsB state l = true →
        decodePass1 rootRtype root state l everyNil = (root, none, everyNil))
    ?c1 ?c2 ?c3 ?c4 ?c5 ?c6 ?c7 ?c8 ?c9 ?c10 ?c11 ?c12 ?c13
  case c1 =>
    intro root state tsRtype fieldSpecs fieldSpec? root1 e snd hpass ih2
    intro fs heq hch hnull helid
    have h2 := ih2 fs.chain hch helid hnull
    rw [h2] at hpass
    simp at hpass
  case c2 =>
    intro root state tsRtype fieldSpecs root1 everyNil hpass fs hcond ih2
    intro g heq hch hnull helid
    cases heq
    have h2 := ih2 fs.chain hch helid hnull
    rw [traverseDecode.eq_def, h2]
    dsimp only
    rw [if_pos (by rw [Bool.true_and]; exact helid)]
  case c3 =>
    intro root state tsRtype fieldSpecs root1 everyNil hpass fs hcond ih2
    intro g heq hch hnull helid
    cases heq
    have h2 := ih2 fs.chain hch helid hnull
    rw [traverseDecode.eq_def, h2]
    dsimp only
    rw [if_pos (by rw [Bool.true_and]; exact helid)]
  case c4 =>
    intro root state tsRtype fieldSpecs root1 everyNil hpass ih2
    intro fs heq hch hnull helid
    cases heq
  case c5 =>
    intro root state everyNil
    intro c hch helid hnull
    rw [decodePass1]
  case c6 =>
    intro root state fs rest everyNil hexp ih
    intro c hch helid hnull
    cases hch with
    | cons _ _ _ hchain hkids hrest =>
      have hp := subtreeNullsB_cons_parts state fs rest hnull
      rw [decodePass1, if_pos hexp]
      exact ih c hrest helid hp.2.2
  case c7 =>
    intro root state fs rest everyNil hexp hanon root1 e htrav ih1
    intro c hch helid hnull
    cases hch with
    | cons _ _ _ hchain hkids hrest =>
      have hp := subtreeNullsB_cons_parts state fs rest hnull
      have helid' : isNilableOrHasNilableNonRootAncestor fs.chain = true := by
        rw [hchain, isNilableOrHasNilableNonRootAncestor, helid]
        simp
      have h1 := ih1 fs rfl hkids hp.2.1 helid'
      rw [h1] at htrav
      simp at htrav
  case c8 =>
    intro root state fs rest everyNil hexp hanon root1 htrav ih1 ih2
    intro c hch helid hnull
    cases hch with
    | cons _ _ _ hchain hkids hrest =>
      have hp := subtreeNullsB_cons_parts state fs rest hnull
      have helid' : isNilableOrHasNilableNonRootAncestor fs.chain = true := by
        rw [hchain, isNilableOrHasNilableNonRootAncestor, helid]
        simp
      have h1 := ih1 fs rfl hkids hp.2.1 helid'
      rw [h1] at htrav
      injection htrav with hr _
      subst hr
      rw [decodePass1, if_neg hexp, if_pos hanon, h1]
      exact ih2 c hrest helid hp.2.2
  case c9 =>
    intro root state fs rest everyNil hexp hanon hcol ih
    intro c hch helid hnull
    cases hch with
    | cons _ _ _ hchain hkids hrest =>
      have hp := subtreeNullsB_cons_parts state fs rest hnull
      rw [decodePass1, if_neg hexp, if_neg hanon, if_pos hcol]
      exact ih c hrest helid hp.2.2
  case c10 =>
    intro root state fs rest everyNil hexp hanon hcol hsn root1 e htrav ih1
    intro c hch helid hnull
    cases hch with
    | cons _ _ _ hchain hkids hrest =>
      have hp := subtreeNullsB_cons_parts state fs rest hnull
      have helid' : isNilableOrHasNilableNonRootAncestor fs.chain = true := by
        rw [hchain, isNilableOrHasNilableNonRootAncestor, helid]
        simp
      have h1 := ih1 fs rfl hkids hp.2.1 helid'
      rw [h1] at htrav
      simp at htrav
  case c11 =>
    intro root state fs rest everyNil hexp hanon hcol hsn root1 htrav ih1 ih2
    intro c hch helid hnull
    cases hch with
    | cons _ _ _ hchain hkids hrest =>
      have hp := subtreeNullsB_cons_parts state fs rest hnull
      have helid' : isNilableOrHasNilableNonRootAncestor fs.chain = true := by
        rw [hchain, isNilableOrHasNilableNonRootAncestor, helid]
        simp
      have h1 := ih1 fs rfl hkids hp.2.1 helid'
      rw [h1] at htrav
      injection htrav with hr _
      subst hr
      rw [decodePass1, if_neg hexp, if_neg hanon, if_neg hcol, if_pos hsn, h1]
      exact ih2 c hrest helid hp.2.2
  case c12 =>
    intro root state fs rest everyNil hexp hanon hcol hsn hlt ih
    intro c hch helid hnull
    cases hch with
    | cons _ _ _ hchain hkids hrest =>
      have hp := subtreeNullsB_cons_parts state fs rest hnull
      rw [decodePass1, if_neg hexp, if_neg hanon, if_neg hcol, if_neg hsn, if_pos hlt]
      exact ih c hrest helid hp.2.2
  case c13 =>
    intro root state fs rest everyNil hexp hanon hcol hsn hlt e1 ih
    intro c hch helid hnull
    cases hch with
    | cons _ _ _ hchain hkids hrest =>
      have hp := subtreeNullsB_cons_parts state fs rest hnull
      have hcell : getCol state fs.colIndex = none := by
        rcases hp.1 with hneg | hnone
        · exact absurd hneg hlt
        · exact Option.isNone_iff_eq_none.mp hnone
      rw [show e1 = (if h : (getCol state fs.colIndex).isSome = true then false
        else everyNil) from rfl, hcell] at ih
      simp only [Option.isSome_none, Bool.false_eq_true, dite_false] at ih
      rw [decodePass1, if_neg hexp, if_neg hanon, if_neg hcol, if_neg hsn, if_neg hlt,
        hcell]
      simp only [Option.isSome_none, Bool.false_eq_true, if_false]
      exact ih c hrest helid hp.2.2

/-- C1: for every successfully built plan and every decoded row, a nested
(non-root) record all of whose column-mapped leaves (throughout its subtree)
read NULL, and which is nilable or has a nilable ancestor above the root, is
left absent by the decoder: its node call returns the destination value
unchanged — nothing allocated, nothing modified — and no error. -/
theorem decode_elides_all_null_nested_record (R : Rtype) (C : List String)
    (spec : TDestSpec) (hplan : prepareDestSpec R C = .ok spec)
    (fs : FieldSpec) (hin : InTree fs spec.fieldSpecs)
    (state : Row) (root : Rval)
    (hnull : subtreeNullsB state fs.children = true)
    (helid : isNilableOrHasNilableNonRootAncestor fs.chain = true) :
    traverseDecode spec.rootRtype root state fs.sfield.type fs.children (some fs) =
      (root, none) := by
  have hch0 : ChainsWF [] spec.fieldSpecs := by
    rw [prepareDestSpec] at hplan
    split at hplan
    · cases hplan
    · rcases htr : traverseMakeSpec R C [] [] [] [] with e | ⟨fsp, m⟩ <;>
        rw [htr] at hplan
      · cases hplan
      · dsimp only at hplan
        rcases hcd : checkColsHaveDest C m with _ | e2 <;> rw [hcd] at hplan
        · cases hplan
          exact traverse_chainsWF R C [] [] [] [] fsp m htr
        · cases hplan
  have hch := chainsWF_inTree hch0 hin
  exact traverseDecode_elide spec.rootRtype root state fs.sfield.type fs.children
    (some fs) fs rfl hch hnull helid

/-- Witness for C1: a nilable nested record (`*Inner` tagged `nested`) whose
single mapped leaf reads NULL is left absent (nil pointer untouched). -/
theorem decode_elides_all_null_nested_record_witness :
    prepareDestSpec
        (.ptr (.strct [Sfield.mk "Nested" "nested" "" false true
          (.ptr (.strct [Sfield.mk "Val" "val" "" false true .prim]))]))
        ["nested.val"] =
      .ok
        { colNames := ["nested.val"],
          colRtypes :=
            [("nested", .ptr (.strct [Sfield.mk "Val" "val" "" false true .prim])),
             ("nested.val", .prim)],
          rootRtype := .ptr (.strct [Sfield.mk "Nested" "nested" "" false true
            (.ptr (.strct [Sfield.mk "Val" "val" "" false true .prim]))]),
          fieldSpecs :=
            [FieldSpec.mk
              (Sfield.mk "Nested" "nested" "" false true
                (.ptr (.strct [Sfield.mk "Val" "val" "" false true .prim])))
              [0] "nested" "nested" (-1)
              [.ptr (.strct [Sfield.mk "Val" "val" "" false true .prim])]
              [FieldSpec.mk (Sfield.mk "Val" "val" "" false true .prim) [0, 0] "val"
                "nested.val" 0
                [.prim, .ptr (.strct [Sfield.mk "Val" "val" "" false true .prim])] []]] } ∧
    InTree
      (FieldSpec.mk
        (Sfield.mk "Nested" "nested" "" false true
          (.ptr (.strct [Sfield.mk "Val" "val" "" false true .prim])))
        [0] "nested" "nested" (-1)
        [.ptr (.strct [Sfield.mk "Val" "val" "" false true .prim])]
        [FieldSpec.mk (Sfield.mk "Val" "val" "" false true .prim) [0, 0] "val"
          "nested.val" 0
          [.prim, .ptr (.strct [Sfield.mk "Val" "val" "" false true .prim])] []])
      [FieldSpec.mk
        (Sfield.mk "Nested" "nested" "" false true
          (.ptr (.strct [Sfield.mk "Val" "val" "" false true .prim])))
        [0] "nested" "nested" (-1)
        [.ptr (.strct [Sfield.mk "Val" "val" "" false true .prim])]
        [FieldSpec.mk (Sfield.mk "Val" "val" "" false true .prim) [0, 0] "val"
          "nested.val" 0
          [.prim, .ptr (.strct [Sfield.mk "Val" "val" "" false true .prim])] []]] ∧
    subtreeNullsB [none]
      [FieldSpec.mk (Sfield.mk "Val" "val" "" false true .prim) [0, 0] "val"
        "nested.val" 0
        [.prim, .ptr (.strct [Sfield.mk "Val" "val" "" false true .prim])] []] = true ∧
    isNilableOrHasNilableNonRootAncestor
      [.ptr (.strct [Sfield.mk "Val" "val" "" false true .prim])] = true ∧
    traverseDecode
        (.ptr (.strct [Sfield.mk "Nested" "nested" "" false true
          (.ptr (.strct [Sfield.mk "Val" "val" "" false true .prim]))]))
        (.ptr (some (.strct [.ptr none]))) [none]
        (.ptr (.strct [Sfield.mk "Val" "val" "" false true .prim]))
        [FieldSpec.mk (Sfield.mk "Val" "val" "" false true .prim) [0, 0] "val"
          "nested.val" 0
          [.prim, .ptr (.strct [Sfield.mk "Val" "val" "" false true .prim])] []]
        (some (FieldSpec.mk
          (Sfield.mk "Nested" "nested" "" false true
            (.ptr (.strct [Sfield.mk "Val" "val" "" false true .prim])))
          [0] "nested" "nested" (-1)
          [.ptr (.strct [Sfield.mk "Val" "val" "" false true .prim])]
          [FieldSpec.mk (Sfield.mk "Val" "val" "" false true .prim) [0, 0] "val"
            "nested.val" 0
            [.prim, .ptr (.strct [Sfield.mk "Val" "val" "" false true .prim])] []])) =
      (.ptr (some (.strct [.ptr none])), none) := by
  have e1 : ".".intercalate ["nested"] = "nested" := rfl
  have e2 : ".".intercalate ["nested", "val"] = "nested.val" := rfl
  have h1 : prepareDestSpec
      (.ptr (.strct [Sfield.mk "Nested" "nested" "" false true
        (.ptr (.strct [Sfield.mk "Val" "val" "" false true .prim]))]))
      ["nested.val"] =
      .ok
        { colNames := ["nested.val"],
          colRtypes :=
            [("nested", .ptr (.strct [Sfield.mk "Val" "val" "" false true .prim])),
             ("nested.val", .prim)],
          rootRtype := .ptr (.strct [Sfield.mk "Nested" "nested" "" false true
            (.ptr (.strct [Sfield.mk "Val" "val" "" false true .prim]))]),
          fieldSpecs :=
            [FieldSpec.mk
              (Sfield.mk "Nested" "nested" "" false true
                (.ptr (.strct [Sfield.mk "Val" "val" "" false true .prim])))
              [0] "nested" "nested" (-1)
              [.ptr (.strct [Sfield.mk "Val" "val" "" false true .prim])]
              [FieldSpec.mk (Sfield.mk "Val" "val" "" false true .prim) [0, 0] "val"
                "nested.val" 0
                [.prim, .ptr (.strct [Sfield.mk "Val" "val" "" false true .prim])] []]] } := by
    simp [prepareDestSpec, isPtrKind, isStructKind, derefRtype, traverseMakeSpec,
      makeSpecFields, refWalk, sfieldColumnName, Sfield.exported, Sfield.anonymous,
      Sfield.tag, Sfield.roleTag, Sfield.name, Sfield.type, aliasLookup, stringIndex,
      isRtypeStructNonScannable, isScannableRtype, checkColsHaveDest, e1, e2]
  have h2 : InTree
      (FieldSpec.mk
        (Sfield.mk "Nested" "nested" "" false true
          (.ptr (.strct [Sfield.mk "Val" "val" "" false true .prim])))
        [0] "nested" "nested" (-1)
        [.ptr (.strct [Sfield.mk "Val" "val" "" false true .prim])]
        [FieldSpec.mk (Sfield.mk "Val" "val" "" false true .prim) [0, 0] "val"
          "nested.val" 0
          [.prim, .ptr (.strct [Sfield.mk "Val" "val" "" false true .prim])] []])
      [FieldSpec.mk
        (Sfield.mk "Nested" "nested" "" false true
          (.ptr (.strct [Sfield.mk "Val" "val" "" false true .prim])))
        [0] "nested" "nested" (-1)
        [.ptr (.strct [Sfield.mk "Val" "val" "" false true .prim])]
        [FieldSpec.mk (Sfield.mk "Val" "val" "" false true .prim) [0, 0] "val"
          "nested.val" 0
          [.prim, .ptr (.strct [Sfield.mk "Val" "val" "" false true .prim])] []]] :=
    InTree.here (by simp)
  have h3 : subtreeNullsB [none]
      [FieldSpec.mk (Sfield.mk "Val" "val" "" false true .prim) [0, 0] "val"
        "nested.val" 0
        [.prim, .ptr (.strct [Sfield.mk "Val" "val" "" false true .prim])] []] = true := by
    simp [subtreeNullsB, getCol, FieldSpec.colIndex, FieldSpec.children]
  have h4 : isNilableOrHasNilableNonRootAncestor
      [.ptr (.strct [Sfield.mk "Val" "val" "" false true .prim])] = true := by
    simp [isNilableOrHasNilableNonRootAncestor, isNilableRtype]
  exact ⟨h1, h2, h3, h4,
    decode_elides_all_null_nested_record _ _ _ h1 _ h2 [none]
      (.ptr (some (.strct [.ptr none]))) h3 h4⟩

end Gos
